import Mathlib

/-!
Verification of the echPlus core: a shallow embedding of the client proxy
engine (`apps/client` core, file `part_002`) and the relay server
(`apps/server/main.go`), with theorems settling the frozen claims about
routing, framing, DNS/ECH parsing, traffic statistics, HTTP rewriting,
deadlines and the CN-IP database.
-/

namespace EchPlus

/-- A Go byte string: a list of byte values (each intended `< 256`). -/
abbrev Bytes := List Nat

/-! ## Tunnel framing (client `handleTunnel` / server `handleSession`) -/

/-- The bytes of the literal `CONNECT:` header. -/
def connectHeader : Bytes := [67, 79, 78, 78, 69, 67, 84, 58]

/-- The byte value of the separator character between address and first frame. -/
def pipeByte : Nat := 124

/-- Client side, `handleTunnel`: the text frame
`fmt.Sprintf("CONNECT:%s|%s", target, firstFrame)` sent to the relay. -/
def connectMsg (target firstFrame : Bytes) : Bytes :=
  connectHeader ++ target ++ pipeByte :: firstFrame

/-- Go `strings.Index(s, c)` for a single-byte needle: index of the first
occurrence of byte `c` in `s`, or `none` when absent. -/
def indexOfByte : Bytes → Nat → Option Nat
  | [], _ => none
  | b :: rest, c => if b = c then some 0 else (indexOfByte rest c).map (· + 1)

/-- Server side, `handleSession` CONNECT branch: check the `CONNECT:` header,
split the remainder at the first separator byte into `(addr, firstFrame)`;
`none` models the `ERROR:invalid CONNECT format` reply when no separator
is present (and the non-CONNECT case). -/
def parseConnectFrame (msg : Bytes) : Option (Bytes × Bytes) :=
  if msg.take 8 = connectHeader then
    let rest := msg.drop 8
    match indexOfByte rest pipeByte with
    | none => none
    | some sep => some (rest.take sep, rest.drop (sep + 1))
  else none

theorem indexOfByte_append_cons (t f : Bytes) (c : Nat) (h : c ∉ t) :
    indexOfByte (t ++ c :: f) c = some t.length := by
  induction t with
  | nil => simp [indexOfByte]
  | cons b rest ih =>
    have hb : b ≠ c := fun hbc => h (hbc ▸ List.mem_cons_self b rest)
    have hrest : c ∉ rest := fun hm => h (List.mem_cons_of_mem b hm)
    simp [indexOfByte, hb, ih hrest]

/-- C2: for every target containing no separator byte and arbitrary first-frame
bytes, the client's framing followed by the relay's parse is the identity:
the relay recovers the address exactly and the first frame exactly
(hence writes the first-frame bytes unchanged to the dialed target). -/
theorem connect_frame_roundtrip (t f : Bytes) (h : pipeByte ∉ t) :
    parseConnectFrame (connectMsg t f) = some (t, f) := by
  have hlen : connectHeader.length = 8 := rfl
  have htake : (connectMsg t f).take 8 = connectHeader := by
    rw [connectMsg, List.append_assoc, ← hlen, List.take_left]
  have hdrop : (connectMsg t f).drop 8 = t ++ pipeByte :: f := by
    rw [connectMsg, List.append_assoc, ← hlen, List.drop_left]
  have hidx : indexOfByte (t ++ pipeByte :: f) pipeByte = some t.length :=
    indexOfByte_append_cons t f pipeByte h
  have htake2 : (t ++ pipeByte :: f).take t.length = t := List.take_left t _
  have hdrop2 : (t ++ pipeByte :: f).drop (t.length + 1) = f := by
    have h1 : (t ++ pipeByte :: f).drop t.length = pipeByte :: f :=
      List.drop_left t (pipeByte :: f)
    calc (t ++ pipeByte :: f).drop (t.length + 1)
        = ((t ++ pipeByte :: f).drop t.length).drop 1 := by
          rw [List.drop_drop, Nat.add_comm]
      _ = (pipeByte :: f).drop 1 := by rw [h1]
      _ = f := rfl
  rw [parseConnectFrame, htake, hdrop]
  simp [hidx, htake2, hdrop2]

/-- Concrete evaluation of the round trip: target `a:1`, first frame the two
bytes `[13, 10]` (a CR LF pair). -/
theorem connect_frame_roundtrip_witness :
    pipeByte ∉ [97, 58, 49] ∧
      parseConnectFrame (connectMsg [97, 58, 49] [13, 10]) =
        some ([97, 58, 49], [13, 10]) :=
  ⟨by decide, connect_frame_roundtrip [97, 58, 49] [13, 10] (by decide)⟩

/-! ## Relay server: dispatch of one received text frame (`handleSession`) -/

/-- The bytes of the literal `DATA:` header. -/
def dataHeader : Bytes := [68, 65, 84, 65, 58]

/-- The bytes of the literal `CLOSE` message. -/
def closeMsg : Bytes := [67, 76, 79, 83, 69]

/-- What the relay's `handleSession` loop does with one text frame. -/
inductive TextAction where
  /-- an `ERROR:<reason>` text frame is written and the loop `continue`s -/
  | replyErrorContinue (reason : String)
  /-- well-formed `CONNECT`: a dial of `addr` is attempted (on dial failure an
  `ERROR:` reply is sent and the session returns; on success `CONNECTED`) -/
  | connectAttempt (addr firstFrame : Bytes)
  /-- `DATA:` frame: the payload is written to the target, loop continues -/
  | dataWrite (payload : Bytes)
  /-- `CLOSE`: the session returns -/
  | closeReturn
  /-- no case of the switch matches: nothing is sent, the loop continues -/
  | ignoreContinue
  deriving DecidableEq, Repr

/-- The text-message `switch` of `handleSession`, in source order:
`strings.HasPrefix(msg, "CONNECT:")`, then `strings.HasPrefix(msg, "DATA:")`,
then `msg == "CLOSE"`; a Go `switch` with no `default` does nothing
when no case matches. -/
def handleTextFrame (msg : Bytes) : TextAction :=
  if msg.take 8 = connectHeader then
    let rest := msg.drop 8
    match indexOfByte rest pipeByte with
    | none => .replyErrorContinue "invalid CONNECT format"
    | some sep => .connectAttempt (rest.take sep) (rest.drop (sep + 1))
  else if msg.take 5 = dataHeader then
    .dataWrite (msg.drop 5)
  else if msg = closeMsg then
    .closeReturn
  else
    .ignoreContinue

/-- Does the action write an `ERROR:` reply? -/
def sendsErrorReply : TextAction → Bool
  | .replyErrorContinue _ => true
  | _ => false

/-- Does the action make `handleSession` return (terminate the session)? -/
def endsSession : TextAction → Bool
  | .closeReturn => true
  | _ => false

/-- C4 counterexample: the text frame `HELLO` (bytes `72 69 76 76 79`) is
neither a well-formed `CONNECT`, nor `DATA:`, nor `CLOSE`, yet the relay
neither replies `ERROR:` nor terminates (the frame is silently ignored);
and the separator-less frame `CONNECT:x` draws an `ERROR:` reply but does
not terminate the session either. -/
theorem relay_malformed_text_counterexample :
    (handleTextFrame [72, 69, 76, 76, 79] = TextAction.ignoreContinue ∧
      ¬ (sendsErrorReply (handleTextFrame [72, 69, 76, 76, 79]) = true ∧
          endsSession (handleTextFrame [72, 69, 76, 76, 79]) = true)) ∧
    (handleTextFrame (connectHeader ++ [120]) =
        TextAction.replyErrorContinue "invalid CONNECT format" ∧
      endsSession (handleTextFrame (connectHeader ++ [120])) = false) := by
  decide

/-- C4 amended: a `CONNECT` frame lacking the separator draws the reply
`ERROR:invalid CONNECT format` and the session continues reading; every
other text frame that is neither `CONNECT`, `DATA:` nor `CLOSE` is ignored
without any reply and the session continues. -/
theorem relay_malformed_text_amended (msg : Bytes) :
    (msg.take 8 = connectHeader → indexOfByte (msg.drop 8) pipeByte = none →
      handleTextFrame msg = TextAction.replyErrorContinue "invalid CONNECT format") ∧
    (msg.take 8 ≠ connectHeader → msg.take 5 ≠ dataHeader → msg ≠ closeMsg →
      handleTextFrame msg = TextAction.ignoreContinue) := by
  constructor
  · intro hc hi
    simp [handleTextFrame, hc, hi]
  · intro h1 h2 h3
    simp [handleTextFrame, h1, h2, h3]

/-- Concrete instance of the amended C4 statement on the two inputs of the
counterexample. -/
theorem relay_malformed_text_amended_witness :
    handleTextFrame (connectHeader ++ [120]) =
        TextAction.replyErrorContinue "invalid CONNECT format" ∧
      handleTextFrame [72, 69, 76, 76, 79] = TextAction.ignoreContinue :=
  ⟨(relay_malformed_text_amended (connectHeader ++ [120])).1 (by decide) (by decide),
    (relay_malformed_text_amended [72, 69, 76, 76, 79]).2 (by decide) (by decide) (by decide)⟩

/-! ## Relay server: WebSocket upgrade gate (`handler` in `main.go`) -/

/-- Lower one ASCII character. -/
def lowerChar (c : Char) : Char :=
  if 'A' ≤ c ∧ c ≤ 'Z' then Char.ofNat (c.toNat + 32) else c

/-- ASCII lowering: the behavior of Go `strings.ToLower` on ASCII input. -/
def asciiLower (s : String) : String :=
  ⟨s.data.map lowerChar⟩

/-- Outcome of the relay's HTTP `handler`. -/
inductive HandlerResult where
  /-- path `/` without websocket upgrade: plain `Bad Request` body, status 200 -/
  | rootInfo
  /-- other path without websocket upgrade: HTTP 426 Upgrade Required -/
  | upgradeRequired
  /-- HTTP 401 Unauthorized, no WebSocket upgrade performed -/
  | unauthorized
  /-- WebSocket upgrade performed with the given `Sec-WebSocket-Protocol`
  response header (`none` = header absent) -/
  | upgraded (respProto : Option String)
  deriving DecidableEq, Repr

/-- The relay's `handler`: inputs are the configured token, the request's
`Upgrade` header, URL path, and `Sec-WebSocket-Protocol` header. -/
def relayHandler (token upgradeHdr path protoHdr : String) : HandlerResult :=
  if asciiLower upgradeHdr ≠ "websocket" then
    if path = "/" then .rootInfo else .upgradeRequired
  else if token ≠ "" ∧ protoHdr ≠ token then
    .unauthorized
  else
    .upgraded (if token ≠ "" then some token else none)

/-- C7: with a non-empty configured token and `Upgrade: websocket`, a
`Sec-WebSocket-Protocol` differing from the token draws HTTP 401 and no
upgrade, while the exact token yields an upgrade whose response
`Sec-WebSocket-Protocol` equals the token. -/
theorem relay_auth_gate (token upg path proto : String)
    (htok : token ≠ "") (hupg : asciiLower upg = "websocket") :
    (proto ≠ token → relayHandler token upg path proto = HandlerResult.unauthorized) ∧
    (proto = token → relayHandler token upg path proto = HandlerResult.upgraded (some token)) := by
  constructor
  · intro hne
    simp [relayHandler, hupg, htok, hne]
  · intro heq
    simp [relayHandler, hupg, htok, heq]

/-- Concrete instance of the auth gate at the default token `147258369`. -/
theorem relay_auth_gate_witness :
    relayHandler "147258369" "WebSocket" "/tunnel" "wrong" = HandlerResult.unauthorized ∧
      relayHandler "147258369" "WebSocket" "/tunnel" "147258369" =
        HandlerResult.upgraded (some "147258369") :=
  ⟨(relay_auth_gate "147258369" "WebSocket" "/tunnel" "wrong" (by decide)
      (by decide)).1 (by decide),
    (relay_auth_gate "147258369" "WebSocket" "/tunnel" "147258369" (by decide)
      (by decide)).2 rfl⟩


/-! ## Traffic statistics (`TrafficStats`)

The Go struct keeps a `map[string]*SiteStats` plus running totals; the map is
modelled as an association list with unique keys. `FirstAccess`/`LastAccess`
timestamps are irrelevant to the counted quantities and are omitted. -/

/-- One site's counters (`SiteStats`). -/
structure SiteStats where
  host : String
  upload : Int
  download : Int
  connections : Int
  deriving DecidableEq, Repr

/-- The mutable state of a `TrafficStats` manager. -/
structure TrafficState where
  sites : List (String × SiteStats)
  totalUpload : Int
  totalDownload : Int
  deriving DecidableEq, Repr

/-- A freshly created manager with no persisted file. -/
def TrafficState.empty : TrafficState := ⟨[], 0, 0⟩

/-- Go map lookup `ts.sites[host]`. -/
def findSite : List (String × SiteStats) → String → Option SiteStats
  | [], _ => none
  | (k, v) :: rest, h => if k = h then some v else findSite rest h

/-- In-place `stats.Connections++` on the entry for `host`. -/
def bumpConn (host : String) (p : String × SiteStats) : String × SiteStats :=
  if p.1 = host then (p.1, { p.2 with connections := p.2.connections + 1 }) else p

/-- In-place `stats.Upload += n` on the entry for `host`. -/
def bumpUp (host : String) (n : Int) (p : String × SiteStats) : String × SiteStats :=
  if p.1 = host then (p.1, { p.2 with upload := p.2.upload + n }) else p

/-- In-place `stats.Download += n` on the entry for `host`. -/
def bumpDown (host : String) (n : Int) (p : String × SiteStats) : String × SiteStats :=
  if p.1 = host then (p.1, { p.2 with download := p.2.download + n }) else p

/-- `RecordConnection`: bump the connection count, or insert a fresh entry. -/
def recordConnection (st : TrafficState) (host : String) : TrafficState :=
  match findSite st.sites host with
  | some _ => { st with sites := st.sites.map (bumpConn host) }
  | none => { st with sites := (host, ⟨host, 0, 0, 1⟩) :: st.sites }

/-- `RecordUpload`: the global total always grows; the per-site counter only
when the host is already in the map. -/
def recordUpload (st : TrafficState) (host : String) (n : Int) : TrafficState :=
  { st with
    totalUpload := st.totalUpload + n
    sites := st.sites.map (bumpUp host n) }

/-- `RecordDownload`, symmetric to `RecordUpload`. -/
def recordDownload (st : TrafficState) (host : String) (n : Int) : TrafficState :=
  { st with
    totalDownload := st.totalDownload + n
    sites := st.sites.map (bumpDown host n) }

/-- `GetSiteStats` (the Go code returns a deep copy; values are immutable here). -/
def getSiteStats (st : TrafficState) (host : String) : Option SiteStats :=
  findSite st.sites host

/-- `GetTotalStats`. -/
def getTotalStats (st : TrafficState) : Int × Int :=
  (st.totalUpload, st.totalDownload)

/-- Sum of the `Upload` fields over all entries of the sites map. -/
def sumUpload (sites : List (String × SiteStats)) : Int :=
  (sites.map fun p => p.2.upload).sum

/-- Sum of the `Download` fields over all entries of the sites map. -/
def sumDownload (sites : List (String × SiteStats)) : Int :=
  (sites.map fun p => p.2.download).sum

/-- The keys of the sites map. -/
def siteKeys (sites : List (String × SiteStats)) : List String :=
  sites.map Prod.fst

/-- One `Record*` call. -/
inductive StatsOp where
  | conn (host : String)
  | up (host : String) (n : Int)
  | down (host : String) (n : Int)
  deriving DecidableEq, Repr

/-- Apply one `Record*` call to the state. -/
def applyOp (st : TrafficState) : StatsOp → TrafficState
  | .conn h => recordConnection st h
  | .up h n => recordUpload st h n
  | .down h n => recordDownload st h n

/-- Apply a sequence of `Record*` calls; the states between calls are the
quiescent points. -/
def applyOps (st : TrafficState) : List StatsOp → TrafficState
  | [] => st
  | op :: rest => applyOps (applyOp st op) rest

/-- The client's call discipline (`handleTunnel` records the connection for
`targetHost` before any upload/download on it): every `up`/`down` is on a
host with an earlier `conn`, given the hosts `hs` connected so far. -/
def connectedFirst (hs : List String) : List StatsOp → Bool
  | [] => true
  | .conn h :: rest => connectedFirst (h :: hs) rest
  | .up h _ :: rest => hs.contains h && connectedFirst hs rest
  | .down h _ :: rest => hs.contains h && connectedFirst hs rest

theorem siteKeys_cons (p : String × SiteStats) (rest : List (String × SiteStats)) :
    siteKeys (p :: rest) = p.1 :: siteKeys rest := rfl

theorem findSite_eq_none (sites : List (String × SiteStats)) (h : String) :
    findSite sites h = none ↔ h ∉ siteKeys sites := by
  induction sites with
  | nil => simp [findSite, siteKeys]
  | cons p rest ih =>
    obtain ⟨k, v⟩ := p
    rw [findSite]
    by_cases hk : k = h
    · subst hk
      rw [if_pos rfl, siteKeys_cons]
      simp
    · rw [if_neg hk, ih]
      constructor
      · intro hnm hmem
        rw [siteKeys_cons] at hmem
        rcases List.mem_cons.mp hmem with he | hm
        · exact hk he.symm
        · exact hnm hm
      · intro hnm hm
        exact hnm (by rw [siteKeys_cons]; exact List.mem_cons_of_mem _ hm)

theorem fst_bumpConn (host : String) (p : String × SiteStats) :
    (bumpConn host p).1 = p.1 := by
  unfold bumpConn; split <;> rfl

theorem fst_bumpUp (host : String) (n : Int) (p : String × SiteStats) :
    (bumpUp host n p).1 = p.1 := by
  unfold bumpUp; split <;> rfl

theorem fst_bumpDown (host : String) (n : Int) (p : String × SiteStats) :
    (bumpDown host n p).1 = p.1 := by
  unfold bumpDown; split <;> rfl

theorem siteKeys_map (g : String × SiteStats → String × SiteStats)
    (hg : ∀ p, (g p).1 = p.1) (sites : List (String × SiteStats)) :
    siteKeys (sites.map g) = siteKeys sites := by
  induction sites with
  | nil => rfl
  | cons p rest ih =>
    calc siteKeys (g p :: rest.map g) = (g p).1 :: siteKeys (rest.map g) := rfl
      _ = p.1 :: siteKeys rest := by rw [hg p, ih]

theorem map_id_of_not_mem (g : String × SiteStats → String × SiteStats)
    (host : String) (hg : ∀ p, p.1 ≠ host → g p = p)
    (sites : List (String × SiteStats)) (h : host ∉ siteKeys sites) :
    sites.map g = sites := by
  induction sites with
  | nil => rfl
  | cons p rest ih =>
    have hp : p.1 ≠ host := fun he => h (by simp [siteKeys, he])
    have hrest : host ∉ siteKeys rest := fun hm =>
      h (by simp [siteKeys] at hm ⊢; exact Or.inr hm)
    rw [List.map_cons, hg p hp, ih hrest]

theorem sumUpload_cons (p : String × SiteStats) (rest : List (String × SiteStats)) :
    sumUpload (p :: rest) = p.2.upload + sumUpload rest := by
  simp [sumUpload]

theorem sumDownload_cons (p : String × SiteStats) (rest : List (String × SiteStats)) :
    sumDownload (p :: rest) = p.2.download + sumDownload rest := by
  simp [sumDownload]

theorem sumUpload_map_bumpUp (host : String) (n : Int)
    (sites : List (String × SiteStats)) (hmem : host ∈ siteKeys sites)
    (hnd : (siteKeys sites).Nodup) :
    sumUpload (sites.map (bumpUp host n)) = sumUpload sites + n := by
  induction sites with
  | nil => simp [siteKeys] at hmem
  | cons p rest ih =>
    have hnd' : p.1 ∉ siteKeys rest ∧ (siteKeys rest).Nodup := by
      simpa [siteKeys, List.nodup_cons] using hnd
    rw [List.map_cons]
    by_cases hk : p.1 = host
    · have hrest : host ∉ siteKeys rest := hk ▸ hnd'.1
      rw [map_id_of_not_mem (bumpUp host n) host
        (fun q hq => by unfold bumpUp; rw [if_neg hq]) rest hrest]
      rw [sumUpload_cons, sumUpload_cons]
      unfold bumpUp
      rw [if_pos hk]
      show p.2.upload + n + sumUpload rest = p.2.upload + sumUpload rest + n
      ring
    · have hmem' : host ∈ siteKeys rest := by
        rw [siteKeys_cons] at hmem
        rcases List.mem_cons.mp hmem with he | hm
        · exact absurd he.symm hk
        · exact hm
      rw [sumUpload_cons, sumUpload_cons, ih hmem' hnd'.2]
      unfold bumpUp
      rw [if_neg hk]
      ring

theorem sumDownload_map_bumpDown (host : String) (n : Int)
    (sites : List (String × SiteStats)) (hmem : host ∈ siteKeys sites)
    (hnd : (siteKeys sites).Nodup) :
    sumDownload (sites.map (bumpDown host n)) = sumDownload sites + n := by
  induction sites with
  | nil => simp [siteKeys] at hmem
  | cons p rest ih =>
    have hnd' : p.1 ∉ siteKeys rest ∧ (siteKeys rest).Nodup := by
      simpa [siteKeys, List.nodup_cons] using hnd
    rw [List.map_cons]
    by_cases hk : p.1 = host
    · have hrest : host ∉ siteKeys rest := hk ▸ hnd'.1
      rw [map_id_of_not_mem (bumpDown host n) host
        (fun q hq => by unfold bumpDown; rw [if_neg hq]) rest hrest]
      rw [sumDownload_cons, sumDownload_cons]
      unfold bumpDown
      rw [if_pos hk]
      show p.2.download + n + sumDownload rest = p.2.download + sumDownload rest + n
      ring
    · have hmem' : host ∈ siteKeys rest := by
        rw [siteKeys_cons] at hmem
        rcases List.mem_cons.mp hmem with he | hm
        · exact absurd he.symm hk
        · exact hm
      rw [sumDownload_cons, sumDownload_cons, ih hmem' hnd'.2]
      unfold bumpDown
      rw [if_neg hk]
      ring

theorem sumUpload_map_keepUp (g : String × SiteStats → String × SiteStats)
    (hg : ∀ p, (g p).2.upload = p.2.upload) (sites : List (String × SiteStats)) :
    sumUpload (sites.map g) = sumUpload sites := by
  induction sites with
  | nil => rfl
  | cons p rest ih =>
    rw [List.map_cons, sumUpload_cons, sumUpload_cons, hg p, ih]

theorem sumDownload_map_keepDown (g : String × SiteStats → String × SiteStats)
    (hg : ∀ p, (g p).2.download = p.2.download) (sites : List (String × SiteStats)) :
    sumDownload (sites.map g) = sumDownload sites := by
  induction sites with
  | nil => rfl
  | cons p rest ih =>
    rw [List.map_cons, sumDownload_cons, sumDownload_cons, hg p, ih]

theorem upload_bumpConn (host : String) (p : String × SiteStats) :
    (bumpConn host p).2.upload = p.2.upload := by
  unfold bumpConn; split <;> rfl

theorem download_bumpConn (host : String) (p : String × SiteStats) :
    (bumpConn host p).2.download = p.2.download := by
  unfold bumpConn; split <;> rfl

theorem upload_bumpDown (host : String) (n : Int) (p : String × SiteStats) :
    (bumpDown host n p).2.upload = p.2.upload := by
  unfold bumpDown; split <;> rfl

theorem download_bumpUp (host : String) (n : Int) (p : String × SiteStats) :
    (bumpUp host n p).2.download = p.2.download := by
  unfold bumpUp; split <;> rfl

/-- The quiescent-point invariant, plus the bookkeeping needed to push it
through a run: unique keys, and totals equal to the per-site sums. -/
def GoodState (st : TrafficState) : Prop :=
  (siteKeys st.sites).Nodup ∧
    st.totalUpload = sumUpload st.sites ∧
    st.totalDownload = sumDownload st.sites

theorem good_recordConnection (st : TrafficState) (h : String) (hg : GoodState st) :
    GoodState (recordConnection st h) := by
  obtain ⟨hnd, hu, hd⟩ := hg
  unfold recordConnection
  cases hfind : findSite st.sites h with
  | some v =>
    refine ⟨?_, ?_, ?_⟩
    · simpa [siteKeys_map (bumpConn h) (fst_bumpConn h)] using hnd
    · simpa [sumUpload_map_keepUp (bumpConn h) (upload_bumpConn h)] using hu
    · simpa [sumDownload_map_keepDown (bumpConn h) (download_bumpConn h)] using hd
  | none =>
    have hnot : h ∉ siteKeys st.sites := (findSite_eq_none _ _).mp hfind
    refine ⟨?_, ?_, ?_⟩
    · rw [siteKeys_cons]
      exact List.nodup_cons.mpr ⟨hnot, hnd⟩
    · simpa [sumUpload_cons] using hu
    · simpa [sumDownload_cons] using hd

theorem keys_recordConnection (st : TrafficState) (h : String) :
    h ∈ siteKeys (recordConnection st h).sites ∧
      ∀ k ∈ siteKeys st.sites, k ∈ siteKeys (recordConnection st h).sites := by
  unfold recordConnection
  cases hfind : findSite st.sites h with
  | some v =>
    have hmem : h ∈ siteKeys st.sites := by
      by_contra hc
      rw [(findSite_eq_none _ _).mpr hc] at hfind
      exact Option.noConfusion hfind
    constructor
    · simpa [siteKeys_map (bumpConn h) (fst_bumpConn h)] using hmem
    · intro k hk
      simpa [siteKeys_map (bumpConn h) (fst_bumpConn h)] using hk
  | none =>
    constructor
    · simp [siteKeys]
    · intro k hk
      simp [siteKeys] at hk ⊢
      exact Or.inr hk

theorem good_recordUpload (st : TrafficState) (h : String) (n : Int)
    (hg : GoodState st) (hmem : h ∈ siteKeys st.sites) :
    GoodState (recordUpload st h n) ∧
      siteKeys (recordUpload st h n).sites = siteKeys st.sites := by
  obtain ⟨hnd, hu, hd⟩ := hg
  have hkeys : siteKeys (recordUpload st h n).sites = siteKeys st.sites :=
    siteKeys_map (bumpUp h n) (fst_bumpUp h n) st.sites
  refine ⟨⟨?_, ?_, ?_⟩, hkeys⟩
  · simpa [hkeys] using hnd
  · show st.totalUpload + n = sumUpload (st.sites.map (bumpUp h n))
    rw [sumUpload_map_bumpUp h n st.sites hmem hnd, hu]
  · show st.totalDownload = sumDownload (st.sites.map (bumpUp h n))
    rw [sumDownload_map_keepDown (bumpUp h n) (download_bumpUp h n), hd]

theorem good_recordDownload (st : TrafficState) (h : String) (n : Int)
    (hg : GoodState st) (hmem : h ∈ siteKeys st.sites) :
    GoodState (recordDownload st h n) ∧
      siteKeys (recordDownload st h n).sites = siteKeys st.sites := by
  obtain ⟨hnd, hu, hd⟩ := hg
  have hkeys : siteKeys (recordDownload st h n).sites = siteKeys st.sites :=
    siteKeys_map (bumpDown h n) (fst_bumpDown h n) st.sites
  refine ⟨⟨?_, ?_, ?_⟩, hkeys⟩
  · simpa [hkeys] using hnd
  · show st.totalUpload = sumUpload (st.sites.map (bumpDown h n))
    rw [sumUpload_map_keepUp (bumpDown h n) (upload_bumpDown h n), hu]
  · show st.totalDownload + n = sumDownload (st.sites.map (bumpDown h n))
    rw [sumDownload_map_bumpDown h n st.sites hmem hnd, hd]

theorem goodState_applyOps (ops : List StatsOp) (st : TrafficState) (hs : List String)
    (hg : GoodState st) (hsub : ∀ h, hs.contains h = true → h ∈ siteKeys st.sites)
    (hcf : connectedFirst hs ops = true) :
    GoodState (applyOps st ops) := by
  induction ops generalizing st hs with
  | nil => exact hg
  | cons op rest ih =>
    cases op with
    | conn h =>
      rw [connectedFirst] at hcf
      refine ih (recordConnection st h) (h :: hs)
        (good_recordConnection st h hg) ?_ hcf
      intro k hk
      rcases (by simpa using hk : k = h ∨ hs.contains k = true) with he | hm
      · exact he ▸ (keys_recordConnection st h).1
      · exact (keys_recordConnection st h).2 k (hsub k hm)
    | up h n =>
      rw [connectedFirst, Bool.and_eq_true] at hcf
      have hmem : h ∈ siteKeys st.sites := hsub h hcf.1
      obtain ⟨hg', hkeys⟩ := good_recordUpload st h n hg hmem
      refine ih (recordUpload st h n) hs hg' ?_ hcf.2
      intro k hk
      rw [hkeys]
      exact hsub k hk
    | down h n =>
      rw [connectedFirst, Bool.and_eq_true] at hcf
      have hmem : h ∈ siteKeys st.sites := hsub h hcf.1
      obtain ⟨hg', hkeys⟩ := good_recordDownload st h n hg hmem
      refine ih (recordDownload st h n) hs hg' ?_ hcf.2
      intro k hk
      rw [hkeys]
      exact hsub k hk

theorem scenario_state (H : String) (N M : Int) :
    applyOps TrafficState.empty [.conn H, .up H N, .down H M] =
      ⟨[(H, ⟨H, 0 + N, 0 + M, 1⟩)], 0 + N, 0 + M⟩ := by
  show applyOps (recordConnection TrafficState.empty H) [.up H N, .down H M] = _
  have h1 : recordConnection TrafficState.empty H =
      ⟨[(H, ⟨H, 0, 0, 1⟩)], 0, 0⟩ := rfl
  rw [h1]
  show applyOps (recordUpload ⟨[(H, ⟨H, 0, 0, 1⟩)], 0, 0⟩ H N) [.down H M] = _
  have h2 : recordUpload ⟨[(H, ⟨H, 0, 0, 1⟩)], 0, 0⟩ H N =
      ⟨[(H, ⟨H, 0 + N, 0, 1⟩)], 0 + N, 0⟩ := by
    unfold recordUpload
    simp [bumpUp]
  rw [h2]
  show applyOp ⟨[(H, ⟨H, 0 + N, 0, 1⟩)], 0 + N, 0⟩ (.down H M) = _
  unfold applyOp recordDownload
  simp [bumpDown]

/-- C5: (a) starting from a fresh manager, any sequence of `Record*` calls
following the client's connect-before-transfer discipline leaves, at the
quiescent point after the run, `totalUpload` equal to the sum of per-site
`Upload` fields and `totalDownload` equal to the sum of per-site `Download`
fields; (b) after recording a connection, `N` upload bytes and `M` download
bytes for host `H`, `GetSiteStats H` reports `Upload = N`, `Download = M`,
`Connections = 1 ≥ 1`, and `GetTotalStats` equals the per-site sums. -/
theorem traffic_totals_invariant :
    (∀ ops : List StatsOp, connectedFirst [] ops = true →
      (applyOps TrafficState.empty ops).totalUpload =
          sumUpload (applyOps TrafficState.empty ops).sites ∧
        (applyOps TrafficState.empty ops).totalDownload =
          sumDownload (applyOps TrafficState.empty ops).sites) ∧
    (∀ (H : String) (N M : Int),
      getSiteStats (applyOps TrafficState.empty [.conn H, .up H N, .down H M]) H =
          some ⟨H, N, M, 1⟩ ∧
        (1 : Int) ≥ 1 ∧
        getTotalStats (applyOps TrafficState.empty [.conn H, .up H N, .down H M]) =
          (sumUpload (applyOps TrafficState.empty [.conn H, .up H N, .down H M]).sites,
            sumDownload (applyOps TrafficState.empty [.conn H, .up H N, .down H M]).sites) ∧
        getTotalStats (applyOps TrafficState.empty [.conn H, .up H N, .down H M]) = (N, M)) := by
  constructor
  · intro ops hcf
    have hg : GoodState (applyOps TrafficState.empty ops) :=
      goodState_applyOps ops TrafficState.empty []
        ⟨by simp [TrafficState.empty, siteKeys], rfl, rfl⟩
        (by intro h hc; simp [List.contains] at hc) hcf
    exact ⟨hg.2.1, hg.2.2⟩
  · intro H N M
    rw [scenario_state H N M]
    refine ⟨?_, le_refl 1, ?_, ?_⟩
    · simp [getSiteStats, findSite]
    · simp [getTotalStats, sumUpload, sumDownload]
    · simp [getTotalStats]

/-- Concrete instance: host `h`, 5 bytes up then 7 bytes down, and the
invariant run for that same call sequence. -/
theorem traffic_totals_invariant_witness :
    ((applyOps TrafficState.empty [.conn "h", .up "h" 5, .down "h" 7]).totalUpload =
        sumUpload (applyOps TrafficState.empty [.conn "h", .up "h" 5, .down "h" 7]).sites) ∧
      getSiteStats (applyOps TrafficState.empty [.conn "h", .up "h" 5, .down "h" 7]) "h" =
        some ⟨"h", 5, 7, 1⟩ :=
  ⟨(traffic_totals_invariant.1 [.conn "h", .up "h" 5, .down "h" 7] (by decide)).1,
    (traffic_totals_invariant.2 "h" 5 7).1⟩


/-! ## Routing (`shouldBypassProxy`, `isChinaIP`, `isPrivateIP`, CN-IP loader)

The routing code consumes Go stdlib values (`net.IP`, `net.ParseIP`,
`net.LookupIP`). A `GoIP` records the results of the stdlib methods the
routing code calls on a parsed IP; a `NetEnv` supplies the two stdlib
functions (name resolution is an oracle). -/

/-- The view of a non-nil Go `net.IP` consumed by the routing code:
`To4` (four bytes, or `none` for a pure IPv6 address), `To16` (sixteen
bytes), the four classification predicates used by `isPrivateIPAddress`,
and `String()`. -/
structure GoIP where
  to4 : Option (Nat × Nat × Nat × Nat)
  to16 : Option (List Nat)
  isLoopback : Bool
  isLinkLocalUnicast : Bool
  isLinkLocalMulticast : Bool
  isPrivate : Bool
  str : String
  deriving DecidableEq, Repr

/-- The stdlib network oracle: `net.ParseIP` (`none` = not an IP literal) and
`net.LookupIP` (`none` = resolution error). -/
structure NetEnv where
  parseIP : String → Option GoIP
  lookupIP : String → Option (List GoIP)

/-- `ipToUint32`: big-endian 32-bit value of the `To4` bytes; 0 when `To4`
returns nil. -/
def ipToUint32 (ip : GoIP) : Nat :=
  match ip.to4 with
  | none => 0
  | some (a, b, c, d) => (a <<< 24) ||| (b <<< 16) ||| (c <<< 8) ||| d

/-- One `ipRange` entry: `[start, end]`, both inclusive (Go field `end` is
called `stop` here because `end` is a Lean keyword). -/
structure IpRange where
  start : Nat
  stop : Nat
  deriving DecidableEq, Repr

/-- One `ipRangeV6` entry over 16-byte addresses. -/
structure IpRangeV6 where
  start : List Nat
  stop : List Nat
  deriving DecidableEq, Repr

/-- `compareIPv6`: lexicographic comparison of the byte sequences, returning
-1/0/1 like the Go original (which walks the 16 fixed bytes). -/
def compareIPv6 : List Nat → List Nat → Int
  | a :: as, b :: bs => if a < b then -1 else if a > b then 1 else compareIPv6 as bs
  | _, _ => 0

/-- The binary-search loop of `isChinaIP` over the IPv4 ranges (`left`/`right`
as in the source; an out-of-bounds index cannot occur for the call pattern
`left = 0, right = length` and answers `false` here). -/
def searchIPv4 (ranges : List IpRange) (ip : Nat) (left right : Nat) : Bool :=
  if h : left < right then
    let mid := (left + right) / 2
    match ranges[mid]? with
    | none => false
    | some r =>
      if ip < r.start then searchIPv4 ranges ip left mid
      else if ip > r.stop then searchIPv4 ranges ip (mid + 1) right
      else true
  else false
termination_by right - left
decreasing_by
  all_goals simp_wf
  · have h1 : (left + right) / 2 < right := Nat.div_lt_iff_lt_mul two_pos |>.mpr (by omega)
    omega
  · have h1 : left ≤ (left + right) / 2 := Nat.le_div_iff_mul_le two_pos |>.mpr (by omega)
    omega

/-- The binary-search loop of `isChinaIP` over the IPv6 ranges. -/
def searchIPv6 (ranges : List IpRangeV6) (ip : List Nat) (left right : Nat) : Bool :=
  if h : left < right then
    let mid := (left + right) / 2
    match ranges[mid]? with
    | none => false
    | some r =>
      if compareIPv6 ip r.start < 0 then searchIPv6 ranges ip left mid
      else if compareIPv6 ip r.stop > 0 then searchIPv6 ranges ip (mid + 1) right
      else true
  else false
termination_by right - left
decreasing_by
  all_goals simp_wf
  · have h1 : (left + right) / 2 < right := Nat.div_lt_iff_lt_mul two_pos |>.mpr (by omega)
    omega
  · have h1 : left ≤ (left + right) / 2 := Nat.le_div_iff_mul_le two_pos |>.mpr (by omega)
    omega

/-- `isChinaIP` over the loaded ranges: parse the query string; for an IPv4
value search the IPv4 vector (zero value answers `false` outright), else
search the IPv6 vector on the 16-byte form. -/
def isChinaIP (ranges4 : List IpRange) (ranges6 : List IpRangeV6)
    (env : NetEnv) (ipStr : String) : Bool :=
  match env.parseIP ipStr with
  | none => false
  | some ip =>
    if ip.to4.isSome then
      let ipUint32 := ipToUint32 ip
      if ipUint32 = 0 then false
      else searchIPv4 ranges4 ipUint32 0 ranges4.length
    else
      match ip.to16 with
      | none => false
      | some bytes => searchIPv6 ranges6 bytes 0 ranges6.length

/-- `isPrivateIPAddress` (the `nil` guard is subsumed: a `GoIP` is non-nil). -/
def isPrivateIPAddress (ip : GoIP) : Bool :=
  ip.isLoopback || ip.isLinkLocalUnicast || ip.isLinkLocalMulticast || ip.isPrivate

/-- `isPrivateIP`: an IP literal is classified directly; a name is resolved,
a resolution error or empty answer is not private, and otherwise all
resolved addresses must be private. -/
def isPrivateIP (env : NetEnv) (host : String) : Bool :=
  match env.parseIP host with
  | some ip => isPrivateIPAddress ip
  | none =>
    match env.lookupIP host with
    | none => false
    | some ips =>
      if ips.isEmpty then false
      else ips.all isPrivateIPAddress

/-- `RoutingMode` values (Go string constants). -/
def routingModeGlobal : String := "global"

/-- `bypass_cn` mode. -/
def routingModeBypassCN : String := "bypass_cn"

/-- `none` (direct) mode. -/
def routingModeNone : String := "none"

/-- The routing-relevant slice of `ProxyServer` state. -/
structure RoutingState where
  routingMode : String
  chinaIPRanges : List IpRange
  chinaIPV6Ranges : List IpRangeV6

/-- `shouldBypassProxy`, branch for branch from the source. -/
def shouldBypassProxy (s : RoutingState) (env : NetEnv) (targetHost : String) : Bool :=
  if s.routingMode = routingModeNone then true
  else if isPrivateIP env targetHost then true
  else if s.routingMode = routingModeGlobal then false
  else if s.routingMode = routingModeBypassCN then
    match env.parseIP targetHost with
    | some _ => isChinaIP s.chinaIPRanges s.chinaIPV6Ranges env targetHost
    | none =>
      match env.lookupIP targetHost with
      | none => false
      | some ips => ips.any fun ip => isChinaIP s.chinaIPRanges s.chinaIPV6Ranges env ip.str
  else false

theorem routingModeGlobal_ne_none : routingModeGlobal ≠ routingModeNone := by decide

theorem routingModeBypassCN_ne_none : routingModeBypassCN ≠ routingModeNone := by decide

theorem routingModeBypassCN_ne_global : routingModeBypassCN ≠ routingModeGlobal := by decide

/-- C1: the routing decision. (i) mode `none` always bypasses; (ii) a private
/loopback/link-local IP literal, or a name resolving (non-emptily) to only
such addresses, bypasses in every mode; otherwise (iii) mode `global` never
bypasses, and (iv) in mode `bypass_cn` an IP literal bypasses iff the CN
database contains it, a name bypasses iff some system-resolved IP is in the
CN database, and a resolution failure does not bypass. -/
theorem routing_decision (s : RoutingState) (env : NetEnv) (host : String) :
    (s.routingMode = routingModeNone → shouldBypassProxy s env host = true) ∧
    (∀ ip, env.parseIP host = some ip → isPrivateIPAddress ip = true →
      shouldBypassProxy s env host = true) ∧
    (∀ ips, env.parseIP host = none → env.lookupIP host = some ips → ips ≠ [] →
      ips.all isPrivateIPAddress = true → shouldBypassProxy s env host = true) ∧
    (s.routingMode = routingModeGlobal → isPrivateIP env host = false →
      shouldBypassProxy s env host = false) ∧
    (s.routingMode = routingModeBypassCN → isPrivateIP env host = false →
      ((env.parseIP host).isSome →
          shouldBypassProxy s env host =
            isChinaIP s.chinaIPRanges s.chinaIPV6Ranges env host) ∧
        (env.parseIP host = none → env.lookupIP host = none →
          shouldBypassProxy s env host = false) ∧
        (∀ ips, env.parseIP host = none → env.lookupIP host = some ips →
          shouldBypassProxy s env host =
            ips.any fun ip => isChinaIP s.chinaIPRanges s.chinaIPV6Ranges env ip.str)) := by
  refine ⟨?_, ?_, ?_, ?_, ?_⟩
  · intro hm
    simp [shouldBypassProxy, hm]
  · intro ip hp hpriv
    have hpi : isPrivateIP env host = true := by
      simp [isPrivateIP, hp, hpriv]
    by_cases hm : s.routingMode = routingModeNone <;>
      simp [shouldBypassProxy, hm, hpi]
  · intro ips hp hl hne hall
    have hpi : isPrivateIP env host = true := by
      simp only [isPrivateIP, hp, hl]
      rw [if_neg (by simpa [List.isEmpty_iff] using hne)]
      exact hall
    by_cases hm : s.routingMode = routingModeNone <;>
      simp [shouldBypassProxy, hm, hpi]
  · intro hm hpriv
    simp [shouldBypassProxy, hm, routingModeGlobal_ne_none, hpriv]
  · intro hm hpriv
    refine ⟨?_, ?_, ?_⟩
    · intro hps
      obtain ⟨ip, hip⟩ := Option.isSome_iff_exists.mp hps
      simp [shouldBypassProxy, hm, routingModeBypassCN_ne_none,
        routingModeBypassCN_ne_global, hpriv, hip]
    · intro hp hl
      simp [shouldBypassProxy, hm, routingModeBypassCN_ne_none,
        routingModeBypassCN_ne_global, hpriv, hp, hl]
    · intro ips hp hl
      simp [shouldBypassProxy, hm, routingModeBypassCN_ne_none,
        routingModeBypassCN_ne_global, hpriv, hp, hl]

/-- A parsed private IPv4 literal `10.0.0.1`. -/
def privIP : GoIP :=
  ⟨some (10, 0, 0, 1), some [0, 0, 0, 0, 0, 0, 0, 0, 0, 0, 255, 255, 10, 0, 0, 1],
    false, false, false, true, "10.0.0.1"⟩

/-- A parsed public IPv4 literal `1.2.3.4` (inside the sample CN range). -/
def cnIP : GoIP :=
  ⟨some (1, 2, 3, 4), some [0, 0, 0, 0, 0, 0, 0, 0, 0, 0, 255, 255, 1, 2, 3, 4],
    false, false, false, false, "1.2.3.4"⟩

/-- A concrete oracle: `10.0.0.1` and `1.2.3.4` parse as IP literals,
`cn.example` resolves to `1.2.3.4`, everything else fails to resolve. -/
def envW : NetEnv where
  parseIP := fun s =>
    if s = "10.0.0.1" then some privIP
    else if s = "1.2.3.4" then some cnIP
    else none
  lookupIP := fun s =>
    if s = "cn.example" then some [cnIP] else none

/-- The sample routing state: `[1.0.0.0, 1.255.255.255]` loaded as the only
CN IPv4 range. -/
def stateW (mode : String) : RoutingState := ⟨mode, [⟨16777216, 33554431⟩], []⟩

/-- Concrete instances of the routing decision under `envW`: a private literal
bypasses in `global` mode, an unresolvable name in `bypass_cn` mode does not
bypass, and `cn.example` bypasses because its resolved address is in the CN
database. -/
theorem routing_decision_witness :
    shouldBypassProxy (stateW "global") envW "10.0.0.1" = true ∧
      shouldBypassProxy (stateW "bypass_cn") envW "no.example" = false ∧
      shouldBypassProxy (stateW "bypass_cn") envW "cn.example" = true := by
  refine ⟨?_, ?_, ?_⟩
  · exact (routing_decision (stateW "global") envW "10.0.0.1").2.1
      privIP (by decide) (by decide)
  · exact ((routing_decision (stateW "bypass_cn") envW "no.example").2.2.2.2
      rfl (by decide)).2.1 (by decide) (by decide)
  · have h := ((routing_decision (stateW "bypass_cn") envW "cn.example").2.2.2.2
      rfl (by decide)).2.2 [cnIP] (by decide) (by decide)
    rw [h]
    simp only [List.any_cons, List.any_nil, Bool.or_false]
    rw [show isChinaIP (stateW "bypass_cn").chinaIPRanges (stateW "bypass_cn").chinaIPV6Ranges
      envW cnIP.str = searchIPv4 [⟨16777216, 33554431⟩] 16909060 0 1 from by
        simp [isChinaIP, envW, cnIP, stateW, ipToUint32]]
    rw [searchIPv4]
    norm_num


/-! ## CN IPv4 list loader (`loadChinaIPList`), pure parsing core -/

/-- ASCII whitespace, the cases relevant to the range files. -/
def isSpaceChar (c : Char) : Bool :=
  c = ' ' || c = '\t' || c = '\n' || c = '\r'

/-- Go `strings.TrimSpace` (ASCII fragment). -/
def trimSpace (s : String) : String :=
  ⟨((s.data.dropWhile isSpaceChar).reverse.dropWhile isSpaceChar).reverse⟩

/-- Accumulating worker for `splitFields`. -/
def fieldsAux : List Char → List Char → List String
  | [], acc => if acc.isEmpty then [] else [⟨acc.reverse⟩]
  | c :: rest, acc =>
    if isSpaceChar c then
      if acc.isEmpty then fieldsAux rest []
      else ⟨acc.reverse⟩ :: fieldsAux rest []
    else fieldsAux rest (c :: acc)

/-- Go `strings.Fields`: split on whitespace runs. -/
def splitFields (s : String) : List String :=
  fieldsAux s.data []

/-- The per-line body of the `loadChinaIPList` scan: trim, skip blank and `#`
lines, take the first two fields, parse both as IPs, convert with
`ipToUint32`, and keep the range only when `start > 0 && end > 0 &&
start <= end`. -/
def parseRangeLine (env : NetEnv) (line : String) : Option IpRange :=
  let line := trimSpace line
  if line = "" then none
  else if line.data.head? = some '#' then none
  else
    match splitFields line with
    | p0 :: p1 :: _ =>
      match env.parseIP p0, env.parseIP p1 with
      | some startIP, some endIP =>
        let start := ipToUint32 startIP
        let stop := ipToUint32 endIP
        if 0 < start ∧ 0 < stop ∧ start ≤ stop then some ⟨start, stop⟩ else none
      | _, _ => none
    | _ => none

/-- The pure core of `loadChinaIPList`: parse every line, drop the rejected
ones, sort ascending by `start` (`sort.Slice`). The surrounding I/O
(download on missing file, error when no range parses) does not change the
resulting range list. -/
def loadChinaIPList (env : NetEnv) (lines : List String) : List IpRange :=
  ((lines.filterMap (parseRangeLine env)).mergeSort fun a b => a.start ≤ b.start)

theorem parseRangeLine_pos (env : NetEnv) (line : String) (r : IpRange)
    (h : parseRangeLine env line = some r) :
    0 < r.start ∧ 0 < r.stop ∧ r.start ≤ r.stop := by
  simp only [parseRangeLine] at h
  repeat' split at h
  any_goals exact Option.noConfusion h
  next hcond =>
    injection h with hr
    subst hr
    exact hcond

/-- C10: (i) a query that does not parse as an IP answers `false`;
(ii) an IPv4 literal whose 32-bit value is 0 answers `false` regardless of
the loaded ranges; (iii) the IPv4 loader only emits ranges whose start and
end convert to non-zero values (with start ≤ end), so a range beginning at
`0.0.0.0` is discarded and never participates in a membership answer. -/
theorem china_ip_zero_and_loader (env : NetEnv) :
    (∀ r4 r6 q, env.parseIP q = none → isChinaIP r4 r6 env q = false) ∧
    (∀ r4 r6 q ip, env.parseIP q = some ip → ip.to4.isSome →
      ipToUint32 ip = 0 → isChinaIP r4 r6 env q = false) ∧
    (∀ lines r, r ∈ loadChinaIPList env lines →
      0 < r.start ∧ 0 < r.stop ∧ r.start ≤ r.stop) := by
  refine ⟨?_, ?_, ?_⟩
  · intro r4 r6 q hq
    simp [isChinaIP, hq]
  · intro r4 r6 q ip hq h4 h0
    simp [isChinaIP, hq, h4, h0]
  · intro lines r hr
    rw [loadChinaIPList, List.mem_mergeSort, List.mem_filterMap] at hr
    obtain ⟨line, _, hline⟩ := hr
    exact parseRangeLine_pos env line r hline

/-- The parsed zero address `0.0.0.0`. -/
def zeroIP : GoIP :=
  ⟨some (0, 0, 0, 0), some [0, 0, 0, 0, 0, 0, 0, 0, 0, 0, 255, 255, 0, 0, 0, 0],
    true, false, false, false, "0.0.0.0"⟩

/-- An oracle resolving the four literals of the sample range file. -/
def envLoaderW : NetEnv where
  parseIP := fun s =>
    if s = "0.0.0.0" then some zeroIP
    else if s = "0.255.255.255" then
      some ⟨some (0, 255, 255, 255), none, false, false, false, false, "0.255.255.255"⟩
    else if s = "1.0.0.0" then
      some ⟨some (1, 0, 0, 0), none, false, false, false, false, "1.0.0.0"⟩
    else if s = "1.255.255.255" then
      some ⟨some (1, 255, 255, 255), none, false, false, false, false, "1.255.255.255"⟩
    else none
  lookupIP := fun _ => none

/-- Concrete loader facts: the kept line `1.0.0.0 1.255.255.255` yields a
member range of the loaded list, every loaded range has positive endpoints,
and both zero-style queries answer `false` even against a range covering
every address. -/
theorem china_ip_zero_and_loader_witness :
    (0 < (16777216 : Nat) ∧ 0 < (33554431 : Nat) ∧ (16777216 : Nat) ≤ 33554431) ∧
      isChinaIP [⟨0, 4294967295⟩] [] envLoaderW "bad host" = false ∧
      isChinaIP [⟨0, 4294967295⟩] [] envLoaderW "0.0.0.0" = false := by
  have hm : (⟨16777216, 33554431⟩ : IpRange) ∈ loadChinaIPList envLoaderW
      ["# comment", "0.0.0.0 0.255.255.255", "1.0.0.0 1.255.255.255"] := by
    rw [loadChinaIPList, List.mem_mergeSort, List.mem_filterMap]
    exact ⟨"1.0.0.0 1.255.255.255", by decide, by decide⟩
  refine ⟨?_, ?_, ?_⟩
  · exact (china_ip_zero_and_loader envLoaderW).2.2
      ["# comment", "0.0.0.0 0.255.255.255", "1.0.0.0 1.255.255.255"]
      ⟨16777216, 33554431⟩ hm
  · exact (china_ip_zero_and_loader envLoaderW).1 [⟨0, 4294967295⟩] [] "bad host" (by decide)
  · exact (china_ip_zero_and_loader envLoaderW).2.1 [⟨0, 4294967295⟩] [] "0.0.0.0"
      zeroIP (by decide) (by decide) (by decide)


/-! ## Relay dialing (`Start` default, `parseServerAddr`, `dialWebSocketWithECH`) -/

/-- The client `Config` (all fields strings, as in the source). -/
structure Config where
  listenAddr : String
  serverAddr : String
  serverIP : String
  token : String
  dnsServer : String
  echDomain : String
  routingMode : String
  storeDir : String
  deriving DecidableEq, Repr

/-- The fragment of `Start` that runs after the listener is bound:
`if s.config.ServerIP == "" { s.config.ServerIP = "www.visa.com" }`. -/
def startNormalizeServerIP (cfg : Config) : Config :=
  if cfg.serverIP = "" then { cfg with serverIP := "www.visa.com" } else cfg

/-- Index of the first occurrence of a character. -/
def idxAux : List Char → Char → Option Nat
  | [], _ => none
  | x :: rest, c => if x = c then some 0 else (idxAux rest c).map (· + 1)

/-- Go `strings.Index(s, c)` for one character. -/
def indexOfChar (s : String) (c : Char) : Option Nat :=
  idxAux s.data c

/-- Worker for `lastIndexOfChar`. -/
def lastIdxAux : List Char → Char → Nat → Option Nat → Option Nat
  | [], _, _, best => best
  | x :: rest, c, i, best => lastIdxAux rest c (i + 1) (if x = c then some i else best)

/-- Go `strings.LastIndex(s, c)` for one character. -/
def lastIndexOfChar (s : String) (c : Char) : Option Nat :=
  lastIdxAux s.data c 0 none

/-- `net.SplitHostPort` for the shapes used here: `host:port` (exactly one
colon) and `[v6]:port`; anything else is an error (`none`). -/
def goSplitHostPort (addr : String) : Option (String × String) :=
  if addr.data.head? = some '[' then
    match indexOfChar addr ']' with
    | none => none
    | some i =>
      if (addr.data.drop (i + 1)).head? = some ':' then
        some (⟨(addr.data.drop 1).take (i - 1)⟩, ⟨addr.data.drop (i + 2)⟩)
      else none
  else
    match lastIndexOfChar addr ':' with
    | none => none
    | some i =>
      if (addr.data.take i).contains ':' then none
      else some (⟨addr.data.take i⟩, ⟨addr.data.drop (i + 1)⟩)

/-- `net.JoinHostPort`. -/
def joinHostPort (host port : String) : String :=
  if host.data.contains ':' then "[" ++ host ++ "]" ++ ":" ++ port
  else host ++ ":" ++ port

/-- `parseServerAddr`: split the path off at the first `/` (default `/`),
then split host and port. -/
def parseServerAddr (cfg : Config) : Option (String × String × String) :=
  let addr := cfg.serverAddr
  let pair :=
    match indexOfChar addr '/' with
    | some i => (String.mk (addr.data.take i), String.mk (addr.data.drop i))
    | none => (addr, "/")
  match goSplitHostPort pair.1 with
  | none => none
  | some (h, p) => some (h, p, pair.2)

/-- What one relay dial uses: the TLS SNI (`buildTLSConfigWithECH(host, …)`)
and the TCP address actually dialed. -/
structure DialPlan where
  sni : String
  tcpAddr : String
  deriving DecidableEq, Repr

/-- `dialWebSocketWithECH`: SNI is the host from `ServerAddr`; the gorilla
dialer resolves `host:port` itself unless `ServerIP != ""`, in which case
the installed `NetDial` dials `ServerIP:port` instead. -/
def relayDialPlan (cfg : Config) : Option DialPlan :=
  match parseServerAddr cfg with
  | none => none
  | some (host, port, _) =>
    some { sni := host
           tcpAddr :=
             if cfg.serverIP ≠ "" then joinHostPort cfg.serverIP port
             else joinHostPort host port }

/-- The sample configuration with an empty pinned IP. -/
def cfgEmptyIP : Config :=
  ⟨"127.0.0.1:30000", "relay.example.com:443/ws", "", "147258369",
    "dns.alidns.com/dns-query", "cloudflare-ech.com", "global", "."⟩

/-- C3 counterexample: with `ServerIP` empty in the user's config, `Start`
rewrites it to `www.visa.com`, so the relay dial targets
`www.visa.com:443` — not the standard resolution of
`relay.example.com` that the claim requires (SNI does stay the logical
host). -/
theorem pinned_ip_counterexample :
    cfgEmptyIP.serverIP = "" ∧
      relayDialPlan (startNormalizeServerIP cfgEmptyIP) =
        some ⟨"relay.example.com", "www.visa.com:443"⟩ ∧
      relayDialPlan (startNormalizeServerIP cfgEmptyIP) ≠
        some ⟨"relay.example.com", "relay.example.com:443"⟩ := by
  refine ⟨rfl, ?_, ?_⟩ <;> decide

/-- C3 amended: after `Start`'s normalization the pinned IP is never empty —
an empty `ServerIP` becomes `www.visa.com` — and every relay dial overrides
the TCP endpoint to `ServerIP:port` (hence `www.visa.com:port` when the
user left it empty) while the TLS SNI remains the host from `ServerAddr`. -/
theorem pinned_ip_amended (cfg : Config) (host port path : String)
    (hparse : parseServerAddr (startNormalizeServerIP cfg) = some (host, port, path)) :
    (startNormalizeServerIP cfg).serverIP ≠ "" ∧
      relayDialPlan (startNormalizeServerIP cfg) =
        some ⟨host, joinHostPort (startNormalizeServerIP cfg).serverIP port⟩ ∧
      (cfg.serverIP = "" → (startNormalizeServerIP cfg).serverIP = "www.visa.com") := by
  by_cases he : cfg.serverIP = ""
  · have hn : startNormalizeServerIP cfg = { cfg with serverIP := "www.visa.com" } := by
      simp [startNormalizeServerIP, he]
    rw [hn] at hparse ⊢
    refine ⟨show ("www.visa.com" : String) ≠ "" by decide, ?_, fun _ => rfl⟩
    simp [relayDialPlan, hparse]
  · have hn : startNormalizeServerIP cfg = cfg := by
      simp [startNormalizeServerIP, he]
    rw [hn] at hparse ⊢
    refine ⟨he, ?_, fun hc => absurd hc he⟩
    simp [relayDialPlan, hparse, he]

/-- Concrete instance of the amended dialing statement on `cfgEmptyIP`. -/
theorem pinned_ip_amended_witness :
    (startNormalizeServerIP cfgEmptyIP).serverIP ≠ "" ∧
      relayDialPlan (startNormalizeServerIP cfgEmptyIP) =
        some ⟨"relay.example.com",
          joinHostPort (startNormalizeServerIP cfgEmptyIP).serverIP "443"⟩ :=
  ⟨(pinned_ip_amended cfgEmptyIP "relay.example.com" "443" "/ws" (by decide)).1,
    (pinned_ip_amended cfgEmptyIP "relay.example.com" "443" "/ws" (by decide)).2.1⟩

/-! ## Client-socket deadline discipline (`handleConnection`, `handleTunnel`,
`handleDirectConnection`) -/

/-- Protocol-mode constants. -/
def modeSOCKS5 : Nat := 1

/-- `modeHTTPConnect`. -/
def modeHTTPConnect : Nat := 2

/-- `modeHTTPProxy`. -/
def modeHTTPProxy : Nat := 3

/-- Deadline operations performed on the accepted client socket. -/
inductive DeadlineOp where
  /-- `conn.SetDeadline(time.Now().Add(d))`, `d` in milliseconds -/
  | setAll (millis : Nat)
  /-- `conn.SetDeadline(time.Time{})` -/
  | clearAll
  /-- `conn.SetReadDeadline(time.Now().Add(d))`, `d` in milliseconds -/
  | setRead (millis : Nat)
  /-- `conn.SetReadDeadline(time.Time{})` -/
  | clearRead
  deriving DecidableEq, Repr

/-- The deadline operations performed on the client socket from accept until
the streaming (relay) phase begins, in program order: `handleConnection`
arms the 30-second deadline right after accept; the tunnel path clears it
(`conn.SetDeadline(time.Time{})`) before the CONNECT exchange and, for a
SOCKS5 session without a pre-frame, briefly arms and clears a 100 ms read
deadline; `handleDirectConnection` performs no deadline operation at all. -/
def clientDeadlineOps (bypass : Bool) (mode : Nat) (firstFrameEmpty : Bool) :
    List DeadlineOp :=
  [.setAll 30000] ++
    (if bypass then []
     else [.clearAll] ++
       (if firstFrameEmpty ∧ mode = modeSOCKS5 then [.setRead 100, .clearRead] else []))

/-- The pending deadlines on the socket (read side, write side). -/
structure DeadlineState where
  readMillis : Option Nat
  writeMillis : Option Nat
  deriving DecidableEq, Repr

/-- Effect of one deadline operation. -/
def stepDeadline (st : DeadlineState) : DeadlineOp → DeadlineState
  | .setAll m => ⟨some m, some m⟩
  | .clearAll => ⟨none, none⟩
  | .setRead m => { st with readMillis := some m }
  | .clearRead => { st with readMillis := none }

/-- The deadline state when the streaming phase begins. -/
def deadlineAtStream (ops : List DeadlineOp) : DeadlineState :=
  ops.foldl stepDeadline ⟨none, none⟩

/-- C9: the 30-second handshake deadline is cleared before streaming in the
tunnel path for every mode, but the direct (bypass) path never clears it —
the full deadline armed at accept is still pending when direct-path
streaming begins, contradicting the claim that both paths clear it. -/
theorem handshake_deadline_direct_bug :
    (∀ (mode : Nat) (ffe : Bool),
      deadlineAtStream (clientDeadlineOps false mode ffe) = ⟨none, none⟩) ∧
    (∀ (mode : Nat) (ffe : Bool),
      deadlineAtStream (clientDeadlineOps true mode ffe) = ⟨some 30000, some 30000⟩) ∧
    deadlineAtStream (clientDeadlineOps true modeSOCKS5 true) ≠ ⟨none, none⟩ := by
  refine ⟨?_, ?_, by decide⟩
  · intro mode ffe
    by_cases hm : ffe = true ∧ mode = modeSOCKS5 <;>
      simp [clientDeadlineOps, deadlineAtStream, stepDeadline, hm]
  · intro mode ffe
    simp [clientDeadlineOps, deadlineAtStream, stepDeadline]


/-! ## HTTP absolute-form rewrite (`handleHTTP`, proxy branch) -/

/-- `strings.Split(line, ":")[0]`: the text before the first colon (the whole
line when there is none). -/
def beforeColon (line : String) : String :=
  match indexOfChar line ':' with
  | none => line
  | some i => ⟨line.data.take i⟩

/-- The lowered, trimmed header key used by the filter in `handleHTTP`. -/
def headerKeyLower (line : String) : String :=
  asciiLower (trimSpace (beforeColon line))

/-- Keep a header line unless its key is `Proxy-Connection` or
`Proxy-Authorization`. -/
def keepHeaderLine (line : String) : Bool :=
  headerKeyLower line != "proxy-connection" && headerKeyLower line != "proxy-authorization"

/-- The `headers` map of `handleHTTP` (keys lowered and trimmed, later
occurrences overwrite earlier ones), looked up at `key`. -/
def headerValue (headerLines : List String) (key : String) : Option String :=
  (headerLines.filterMap fun line =>
    match indexOfChar line ':' with
    | some i =>
      if 0 < i then
        if asciiLower (trimSpace ⟨line.data.take i⟩) = key then
          some (trimSpace ⟨line.data.drop (i + 1)⟩)
        else none
      else none
    | none => none).getLast?

/-- `fmt.Sscanf(s, "%d", &n)` for this use: skip leading spaces, optional
sign, longest digit run; `n` stays 0 when nothing parses. -/
def sscanfInt (s : String) : Int :=
  let cs := s.data.dropWhile isSpaceChar
  match cs with
  | '-' :: rest =>
    let ds := rest.takeWhile Char.isDigit
    if ds.isEmpty then 0 else -(ds.foldl (fun acc c => acc * 10 + (c.toNat - 48)) 0 : Nat)
  | _ =>
    let ds := cs.takeWhile Char.isDigit
    if ds.isEmpty then 0 else (ds.foldl (fun acc c => acc * 10 + (c.toNat - 48)) 0 : Nat)

/-- The header block written by the `requestBuilder` loop. -/
def rebuildHeaderPart (headerLines : List String) : String :=
  String.join ((headerLines.filter keepHeaderLine).map (· ++ "\r\n"))

/-- The first frame built by `handleHTTP` for an absolute-form request:
request line, filtered headers, blank line, then the body when
`Content-Length` is non-empty, positive, below 10 MiB and fully readable
(`io.ReadFull` succeeds). -/
def buildFirstFrame (method path httpVersion : String) (headerLines : List String)
    (bodyAvail : String) : String :=
  let base := method ++ " " ++ path ++ " " ++ httpVersion ++ "\r\n" ++
    rebuildHeaderPart headerLines ++ "\r\n"
  let cl := (headerValue headerLines "content-length").getD ""
  if cl ≠ "" then
    let length := sscanfInt cl
    if 0 < length ∧ length < 10485760 then
      if length.toNat ≤ bodyAvail.data.length then base ++ ⟨bodyAvail.data.take length.toNat⟩
      else base
    else base
  else base

/-- `strings.TrimPrefix(u, "http://")` guarded by the `HasPrefix` check. -/
def stripHTTP (u : String) : Option String :=
  if u.data.take 7 = "http://".data then some ⟨u.data.drop 7⟩ else none

/-- The target/path computation of `handleHTTP`: host from the absolute URI
(splitting at the first `/` when its index is positive) or from the `Host`
header; empty target is a 400 (`none`); `:80` appended when the target has
no colon. -/
def computeTargetPath (requestURL : String) (headerLines : List String) :
    Option (String × String) :=
  let pair :=
    match stripHTTP requestURL with
    | some rest =>
      match indexOfChar rest '/' with
      | some i =>
        if 0 < i then (String.mk (rest.data.take i), String.mk (rest.data.drop i))
        else (rest, "/")
      | none => (rest, "/")
    | none => ((headerValue headerLines "host").getD "", requestURL)
  if pair.1 = "" then none
  else if pair.1.data.contains ':' then some pair
  else some (pair.1 ++ ":80", pair.2)

/-- Port defaulting as the claim words it. -/
def defaultPort80 (t : String) : String :=
  if t.data.contains ':' then t else t ++ ":80"

/-- The first frame as the claim describes it: request line plus CRLF, all
original header lines whose key is neither `Proxy-Connection` nor
`Proxy-Authorization` each plus CRLF, an empty line, then the body exactly
when `Content-Length` is present, positive and below 10 MiB. (Claim-side
description, to be compared with `buildFirstFrame`.) -/
def specFirstFrame (method path httpVersion : String) (headerLines : List String)
    (body : String) : String :=
  let base := method ++ " " ++ path ++ " " ++ httpVersion ++ "\r\n" ++
    String.join ((headerLines.filter fun l =>
      !(headerKeyLower l == "proxy-connection" || headerKeyLower l == "proxy-authorization")).map
        (· ++ "\r\n")) ++ "\r\n"
  match headerValue headerLines "content-length" with
  | none => base
  | some cl =>
    let n := sscanfInt cl
    if 0 < n ∧ n < 10485760 then base ++ ⟨body.data.take n.toNat⟩ else base

theorem keepHeaderLine_eq_spec (l : String) :
    keepHeaderLine l =
      !(headerKeyLower l == "proxy-connection" || headerKeyLower l == "proxy-authorization") := by
  rw [keepHeaderLine, Bool.not_or]
  rfl

/-- C8: under full body availability, the frame handed to the tunnel is
exactly the claim's concatenation (request line, filtered original headers,
blank line, body exactly when `Content-Length` is present, positive and
below 10 MiB), and the target is the absolute-URI host — or the `Host`
header for origin-form — with `:80` appended when portless. -/
theorem http_rewrite (method path ver requestURL : String) (headerLines : List String)
    (body : String)
    (havail : (sscanfInt ((headerValue headerLines "content-length").getD "")).toNat ≤
      body.data.length) :
    buildFirstFrame method path ver headerLines body =
        specFirstFrame method path ver headerLines body ∧
      (∀ rest i, stripHTTP requestURL = some rest → indexOfChar rest '/' = some i →
        0 < i → String.mk (rest.data.take i) ≠ "" →
        computeTargetPath requestURL headerLines =
          some (defaultPort80 ⟨rest.data.take i⟩, ⟨rest.data.drop i⟩)) ∧
      (∀ hv, stripHTTP requestURL = none → headerValue headerLines "host" = some hv →
        hv ≠ "" →
        computeTargetPath requestURL headerLines = some (defaultPort80 hv, requestURL)) := by
  refine ⟨?_, ?_, ?_⟩
  · rw [buildFirstFrame, specFirstFrame, rebuildHeaderPart]
    rw [List.filter_congr fun l _ => keepHeaderLine_eq_spec l]
    cases hcl : headerValue headerLines "content-length" with
    | none =>
      simp
    | some cl =>
      rw [hcl] at havail
      simp only [hcl, Option.getD_some]
      by_cases hce : cl = ""
      · subst hce
        have h0 : sscanfInt "" = 0 := rfl
        simp [h0]
      · rw [if_pos hce]
        by_cases hpos : 0 < sscanfInt cl ∧ sscanfInt cl < 10485760
        · rw [if_pos hpos, if_pos (by simpa using havail), if_pos hpos]
        · rw [if_neg hpos, if_neg hpos]
  · intro rest i hstrip hidx hipos hne
    simp only [computeTargetPath, hstrip, hidx, if_pos hipos]
    rw [if_neg hne]
    by_cases hc : (String.mk (rest.data.take i)).data.contains ':' = true
    · rw [if_pos hc, defaultPort80, if_pos hc]
    · rw [if_neg hc, defaultPort80, if_neg hc]
  · intro hv hstrip hhost hne
    simp only [computeTargetPath, hstrip, hhost, Option.getD_some]
    rw [if_neg hne]
    by_cases hc : hv.data.contains ':' = true
    · rw [if_pos hc, defaultPort80, if_pos hc]
    · rw [if_neg hc, defaultPort80, if_neg hc]

/-- The spec's concrete example: `GET http://h/p HTTP/1.1` with a `Host` and a
`Proxy-Connection` header rewrites to `GET /p HTTP/1.1\r\nHost: h\r\n\r\n`
(no `Proxy-Connection`), targeting `h:80`. -/
theorem http_rewrite_witness :
    buildFirstFrame "GET" "/p" "HTTP/1.1" ["Host: h", "Proxy-Connection: keep-alive"] "" =
        specFirstFrame "GET" "/p" "HTTP/1.1" ["Host: h", "Proxy-Connection: keep-alive"] "" ∧
      buildFirstFrame "GET" "/p" "HTTP/1.1" ["Host: h", "Proxy-Connection: keep-alive"] "" =
        "GET /p HTTP/1.1\r\nHost: h\r\n\r\n" ∧
      computeTargetPath "http://h/p" ["Host: h", "Proxy-Connection: keep-alive"] =
        some ("h:80", "/p") :=
  ⟨(http_rewrite "GET" "/p" "HTTP/1.1" "http://h/p"
      ["Host: h", "Proxy-Connection: keep-alive"] "" (by decide)).1,
    by decide, by decide⟩


/-! ## Base64 (model of `encoding/base64` `StdEncoding`, used by
`parseHTTPSRecord` / `prepareECH`) -/

/-- The standard base64 alphabet. -/
def b64Alphabet : List Char :=
  "ABCDEFGHIJKLMNOPQRSTUVWXYZabcdefghijklmnopqrstuvwxyz0123456789+/".data

/-- Character for a 6-bit group. -/
def b64Char (n : Nat) : Char := b64Alphabet.getD n 'A'

/-- Index of a character in the alphabet. -/
def b64DecChar (c : Char) : Option Nat := idxAux b64Alphabet c

/-- `base64.StdEncoding.EncodeToString`, three input bytes to four characters
with `=` padding. -/
def base64Encode : Bytes → List Char
  | a :: b :: c :: rest =>
    b64Char (a / 4) :: b64Char (a % 4 * 16 + b / 16) ::
      b64Char (b % 16 * 4 + c / 64) :: b64Char (c % 64) :: base64Encode rest
  | [a, b] => [b64Char (a / 4), b64Char (a % 4 * 16 + b / 16), b64Char (b % 16 * 4), '=']
  | [a] => [b64Char (a / 4), b64Char (a % 4 * 16), '=', '=']
  | [] => []

/-- `base64.StdEncoding.EncodeToString` as a string. -/
def base64EncodeStr (bs : Bytes) : String := ⟨base64Encode bs⟩

/-- `base64.StdEncoding.DecodeString`: four characters at a time, padding only
in the final quartet; `none` is a decode error. -/
def base64Decode : List Char → Option Bytes
  | [] => some []
  | e1 :: e2 :: e3 :: e4 :: rest =>
    match b64DecChar e1, b64DecChar e2 with
    | some a, some b =>
      if e3 = '=' then
        if e4 = '=' ∧ rest = [] then some [a * 4 + b / 16] else none
      else
        match b64DecChar e3 with
        | some c =>
          if e4 = '=' then
            if rest = [] then some [a * 4 + b / 16, b % 16 * 16 + c / 4] else none
          else
            match b64DecChar e4, base64Decode rest with
            | some d, some tail =>
              some ((a * 4 + b / 16) :: (b % 16 * 16 + c / 4) :: (c % 4 * 64 + d) :: tail)
            | _, _ => none
        | none => none
    | _, _ => none
  | _ => none

theorem b64DecChar_b64Char : ∀ n < 64, b64DecChar (b64Char n) = some n := by decide

theorem b64Char_ne_pad : ∀ n < 64, b64Char n ≠ '=' := by decide

theorem base64_roundtrip (bs : Bytes) (hb : ∀ x ∈ bs, x < 256) :
    base64Decode (base64Encode bs) = some bs := by
  induction bs using base64Encode.induct with
  | case1 a b c rest ih =>
    have ha : a < 256 := hb a (by simp)
    have hbb : b < 256 := hb b (by simp)
    have hc : c < 256 := hb c (by simp)
    have ihr : base64Decode (base64Encode rest) = some rest :=
      ih fun x hx => hb x (by simp [hx])
    rw [base64Encode, base64Decode]
    simp only [b64DecChar_b64Char (a / 4) (by omega),
      b64DecChar_b64Char (a % 4 * 16 + b / 16) (by omega),
      if_neg (b64Char_ne_pad (b % 16 * 4 + c / 64) (by omega)),
      b64DecChar_b64Char (b % 16 * 4 + c / 64) (by omega),
      if_neg (b64Char_ne_pad (c % 64) (by omega)),
      b64DecChar_b64Char (c % 64) (by omega), ihr]
    simp only [Option.some.injEq, List.cons.injEq]
    exact ⟨by omega, by omega, by omega, trivial⟩
  | case2 a b =>
    have ha : a < 256 := hb a (by simp)
    have hbb : b < 256 := hb b (by simp)
    rw [base64Encode, base64Decode]
    simp only [b64DecChar_b64Char (a / 4) (by omega),
      b64DecChar_b64Char (a % 4 * 16 + b / 16) (by omega),
      if_neg (b64Char_ne_pad (b % 16 * 4) (by omega)),
      b64DecChar_b64Char (b % 16 * 4) (by omega)]
    simp
    omega
  | case3 a =>
    have ha : a < 256 := hb a (by simp)
    rw [base64Encode, base64Decode]
    simp only [b64DecChar_b64Char (a / 4) (by omega),
      b64DecChar_b64Char (a % 4 * 16) (by omega)]
    simp
    omega
  | case4 => rfl


/-! ## DNS response parsing (`parseDNSResponse`, `parseHTTPSRecord`,
`prepareECH`)

Byte reads `response[i]` become `getD i 0`; every read in the source is
bounds-checked first, so the default is never observed. The two `for … != 0`
skip loops advance the offset by at least one byte per step, so running them
with `response.length` steps of fuel is exact. -/

/-- `binary.BigEndian.Uint16(b[i : i+2])`. -/
def beUint16 (b : Bytes) (i : Nat) : Nat :=
  b.getD i 0 * 256 + b.getD (i + 1) 0

/-- The label-skipping loop
`for offset < len(resp) && resp[offset] != 0 { offset += int(resp[offset]) + 1 }`,
run with explicit fuel. -/
def skipNameAux (resp : Bytes) : Nat → Nat → Nat
  | 0, offset => offset
  | fuel + 1, offset =>
    if offset < resp.length ∧ resp.getD offset 0 ≠ 0 then
      skipNameAux resp fuel (offset + resp.getD offset 0 + 1)
    else offset

/-- The label-skipping loop with its exact fuel. -/
def skipName (resp : Bytes) (offset : Nat) : Nat :=
  skipNameAux resp resp.length offset

/-- The SvcParam loop of `parseHTTPSRecord`
(`for offset+4 <= len(data)`; the returned string is the base64 encoding of
the key-5 value, `""` when none is found), with explicit fuel. -/
def svcParamsLoop (data : Bytes) : Nat → Nat → String
  | 0, _ => ""
  | fuel + 1, offset =>
    if offset + 4 ≤ data.length then
      let key := beUint16 data offset
      let length := beUint16 data (offset + 2)
      if offset + 4 + length > data.length then ""
      else
        let value := (data.drop (offset + 4)).take length
        if key = 5 then base64EncodeStr value
        else svcParamsLoop data fuel (offset + 4 + length)
    else ""

/-- `parseHTTPSRecord`: 2 bytes of priority, the target name (a single zero
byte means root), then the SvcParams. -/
def parseHTTPSRecord (data : Bytes) : String :=
  if data.length < 2 then ""
  else
    let offset := 2
    let offset :=
      if offset < data.length ∧ data.getD offset 0 = 0 then offset + 1
      else skipName data offset + 1
    svcParamsLoop data data.length offset

/-- The per-answer loop of `parseDNSResponse`, structurally recursive on the
remaining answer count; `.ok ""` covers both the `break` paths and the
fall-through `return "", nil`. -/
def parseAnswers (resp : Bytes) : Nat → Nat → Except String String
  | 0, _ => .ok ""
  | n + 1, offset =>
    if offset ≥ resp.length then .ok ""
    else
      let offset :=
        if resp.getD offset 0 &&& 0xC0 = 0xC0 then offset + 2
        else skipName resp offset + 1
      if offset + 10 > resp.length then .ok ""
      else
        let rrType := beUint16 resp offset
        let dataLen := beUint16 resp (offset + 8)
        let dataStart := offset + 10
        if dataStart + dataLen > resp.length then .ok ""
        else
          let data := (resp.drop dataStart).take dataLen
          if rrType = 65 then
            if parseHTTPSRecord data ≠ "" then .ok (parseHTTPSRecord data)
            else parseAnswers resp n (dataStart + dataLen)
          else parseAnswers resp n (dataStart + dataLen)

/-- `parseDNSResponse`: header check, `ANCOUNT` at bytes 6–7, question-name
skip from offset 12 plus 5 (zero byte, QTYPE, QCLASS), then the answers.
`.error` carries the Go error message; the Go `("", nil)` result is
`.ok ""`. -/
def parseDNSResponse (response : Bytes) : Except String String :=
  if response.length < 12 then .error "response too short"
  else
    let ancount := beUint16 response 6
    if ancount = 0 then .error "no answer records"
    else parseAnswers response ancount (skipName response 12 + 5)

/-- The failure modes of `prepareECH`. -/
inductive EchError where
  /-- `queryHTTPSRecord` returned an error (wrapped as `DNS 查询失败`) -/
  | dnsQueryFailed (msg : String)
  /-- the resolver returned an empty string (`未找到 ECH 参数`) -/
  | echNotFound
  /-- base64 decoding failed (`ECH 解码失败`) -/
  | echDecodeFailed
  deriving DecidableEq, Repr

/-- `prepareECH`, given the result of the DNS query: errors are wrapped, an
empty string is the ech-not-found error, otherwise the stored ECH list is
the base64 decoding of the returned string. -/
def prepareECH (dnsResult : Except String String) : Except EchError Bytes :=
  match dnsResult with
  | .error e => .error (.dnsQueryFailed e)
  | .ok s =>
    if s = "" then .error .echNotFound
    else
      match base64Decode s.data with
      | none => .error .echDecodeFailed
      | some raw => .ok raw


/-! ## DNS wire format: well-formed responses

The serialization of the response shapes the parser is specified on: a
12-byte header whose bytes 6–7 carry `ANCOUNT`, one question (label-form
name, QTYPE, QCLASS), then the answer records; answer names are either
label-form or a compression pointer (`0xC0 xx`). -/

/-- Label-sequence encoding of a DNS name body (without the closing zero):
each label as a length byte followed by its bytes. -/
def encLabels : List (List Nat) → Bytes
  | [] => []
  | l :: ls => (l.length :: l) ++ encLabels ls

/-- DNS labels are 1–63 bytes long. -/
def validLabels (ls : List (List Nat)) : Prop :=
  ∀ l ∈ ls, 0 < l.length ∧ l.length ≤ 63

/-- An answer's owner name on the wire. -/
inductive WireName where
  /-- compression pointer `0xC0 b` -/
  | ptr (b : Nat)
  /-- label sequence closed by a zero byte -/
  | labels (ls : List (List Nat))

/-- Encoding of a name. -/
def encName : WireName → Bytes
  | .ptr b => [0xC0, b]
  | .labels ls => encLabels ls ++ [0]

/-- Well-formed name. -/
def validName : WireName → Prop
  | .ptr b => b < 256
  | .labels ls => validLabels ls

/-- One answer record of the response. -/
structure Answer where
  name : WireName
  rrType : Nat
  classTTL : Bytes
  rdata : Bytes

/-- Encoding of an answer: name, type (2), class+TTL (6), RDLENGTH (2),
RDATA. -/
def encAnswer (a : Answer) : Bytes :=
  encName a.name ++ [a.rrType / 256, a.rrType % 256] ++ a.classTTL ++
    [a.rdata.length / 256, a.rdata.length % 256] ++ a.rdata

/-- Well-formed answer. -/
def WFAnswer (a : Answer) : Prop :=
  validName a.name ∧ a.rrType < 65536 ∧ a.classTTL.length = 6 ∧ a.rdata.length < 65536

/-- Encoding of the answer section. -/
def encAnswers : List Answer → Bytes
  | [] => []
  | a :: rest => encAnswer a ++ encAnswers rest

/-- A whole response: 6 header bytes, `ANCOUNT`, 4 header bytes, the question
name, QTYPE+QCLASS, the answers. -/
def encResponse (hdrPre hdrPost : Bytes) (q : List (List Nat)) (qMeta : Bytes)
    (answers : List Answer) : Bytes :=
  hdrPre ++ [answers.length / 256, answers.length % 256] ++ hdrPost ++
    encLabels q ++ [0] ++ qMeta ++ encAnswers answers

/-- One SvcParam: key (2), length (2), value. -/
def encParam (p : Nat × Bytes) : Bytes :=
  [p.1 / 256, p.1 % 256, p.2.length / 256, p.2.length % 256] ++ p.2

/-- The SvcParam block. -/
def encParams : List (Nat × Bytes) → Bytes
  | [] => []
  | p :: ps => encParam p ++ encParams ps

/-- The rdata of an HTTPS record: priority (2), target name, SvcParams. -/
structure HTTPSRData where
  priority : Bytes
  targetName : List (List Nat)
  params : List (Nat × Bytes)

/-- Encoding of an HTTPS rdata. -/
def encHTTPS (r : HTTPSRData) : Bytes :=
  r.priority ++ encLabels r.targetName ++ [0] ++ encParams r.params

/-- Well-formed SvcParam. -/
def WFParam (p : Nat × Bytes) : Prop :=
  p.1 < 65536 ∧ p.2.length < 65536

/-- Well-formed HTTPS rdata. -/
def WFHTTPS (r : HTTPSRData) : Prop :=
  r.priority.length = 2 ∧ validLabels r.targetName ∧ ∀ p ∈ r.params, WFParam p

/-- The key-5 (`ech`) value of the SvcParams, as the claim describes it:
the value of the first parameter with key 5, base64-encoded by
`parseHTTPSRecord`. -/
def findEchParams : List (Nat × Bytes) → String
  | [] => ""
  | (k, v) :: rest => if k = 5 then base64EncodeStr v else findEchParams rest

/-! ### Suffix bookkeeping -/

theorem getD_drop (l : Bytes) (n i : Nat) : (l.drop n).getD i 0 = l.getD (n + i) 0 := by
  simp [List.getD_eq_getElem?_getD, List.getElem?_drop]

theorem length_drop_eq (l : Bytes) (off : Nat) (suf : Bytes) (h : l.drop off = suf) :
    l.length - off = suf.length := by
  rw [← h, List.length_drop]

theorem drop_of_drop_append (l : Bytes) (off : Nat) (pre suf : Bytes)
    (h : l.drop off = pre ++ suf) : l.drop (off + pre.length) = suf := by
  have h1 : (l.drop off).drop pre.length = l.drop (off + pre.length) :=
    List.drop_drop pre.length off l
  rw [h, List.drop_left] at h1
  exact h1.symm

theorem drop_facts (l : Bytes) (n : Nat) (x : Nat) (t : Bytes) (h : l.drop n = x :: t) :
    n < l.length ∧ l.getD n 0 = x ∧ l.drop (n + 1) = t := by
  have hlen : l.length - n = t.length + 1 := by
    simpa using length_drop_eq l n (x :: t) h
  refine ⟨by omega, ?_, ?_⟩
  · have := getD_drop l n 0
    rw [h] at this
    simpa using this.symm
  · have := drop_of_drop_append l n [x] t (by simpa using h)
    simpa using this

theorem beUint16_of_drop (l : Bytes) (off : Nat) (b0 b1 : Nat) (t : Bytes)
    (h : l.drop off = b0 :: b1 :: t) : beUint16 l off = b0 * 256 + b1 := by
  obtain ⟨_, h0, h1'⟩ := drop_facts l off b0 (b1 :: t) h
  obtain ⟨_, h1, _⟩ := drop_facts l (off + 1) b1 t h1'
  rw [beUint16, h0, h1]

theorem length_encLabels_ge (ls : List (List Nat)) : ls.length ≤ (encLabels ls).length := by
  induction ls with
  | nil => simp [encLabels]
  | cons l rest ih =>
    simp only [encLabels, List.length_append, List.length_cons]
    omega

/-! ### The name-skip loop on a label-form suffix -/

theorem skipNameAux_spec (resp : Bytes) (ls : List (List Nat)) :
    ∀ (offset fuel : Nat) (rest : Bytes), validLabels ls →
      resp.drop offset = encLabels ls ++ 0 :: rest →
      ls.length ≤ fuel →
      skipNameAux resp fuel offset = offset + (encLabels ls).length := by
  induction ls with
  | nil =>
    intro offset fuel rest _ hd _
    obtain ⟨hlt, hget, _⟩ := drop_facts resp offset 0 rest (by simpa [encLabels] using hd)
    cases fuel with
    | zero => simp [skipNameAux, encLabels]
    | succ fuel =>
      rw [skipNameAux, if_neg (fun hc => hc.2 hget)]
      simp [encLabels]
  | cons l rest ih =>
    intro offset fuel tail hv hd hf
    cases fuel with
    | zero => simp at hf
    | succ fuel =>
      have hd1 : resp.drop offset = l.length :: (l ++ (encLabels rest ++ 0 :: tail)) := by
        simpa [encLabels, List.append_assoc] using hd
      obtain ⟨hlt, hget, hd2⟩ := drop_facts resp offset l.length _ hd1
      have hl : 0 < l.length ∧ l.length ≤ 63 := hv l (by simp)
      rw [skipNameAux, if_pos ⟨hlt, by rw [hget]; omega⟩, hget]
      have hd3 : resp.drop (offset + 1 + l.length) = encLabels rest ++ 0 :: tail :=
        drop_of_drop_append resp (offset + 1) l _ hd2
      have harith : offset + l.length + 1 = offset + 1 + l.length := by omega
      have := ih (offset + 1 + l.length) fuel tail
        (fun x hx => hv x (by simp [hx])) hd3 (by simpa using Nat.le_of_succ_le_succ hf)
      rw [harith, this]
      simp only [encLabels, List.length_append, List.length_cons]
      omega


theorem length_encParams_ge (ps : List (Nat × Bytes)) :
    ps.length ≤ (encParams ps).length := by
  induction ps with
  | nil => simp [encParams]
  | cons p rest ih =>
    simp only [encParams, encParam, List.length_append, List.length_cons]
    omega

theorem svcParamsLoop_spec (data : Bytes) (ps : List (Nat × Bytes)) :
    ∀ (offset fuel : Nat), (∀ p ∈ ps, WFParam p) →
      data.drop offset = encParams ps →
      ps.length ≤ fuel →
      svcParamsLoop data fuel offset = findEchParams ps := by
  induction ps with
  | nil =>
    intro offset fuel _ hd _
    have hlen : data.length - offset = 0 := by
      simpa [encParams] using length_drop_eq data offset (encParams []) hd
    cases fuel with
    | zero => rfl
    | succ fuel =>
      rw [svcParamsLoop, if_neg (by omega)]
      rfl
  | cons p ps ih =>
    obtain ⟨k, v⟩ := p
    intro offset fuel hwf hd hf
    cases fuel with
    | zero => simp at hf
    | succ fuel =>
      obtain ⟨hk, hvl⟩ : k < 65536 ∧ v.length < 65536 := hwf (k, v) (by simp)
      have hd1 : data.drop offset =
          k / 256 :: k % 256 :: v.length / 256 :: v.length % 256 :: (v ++ encParams ps) := by
        simpa [encParams, encParam, List.append_assoc] using hd
      have hS : data.length - offset = 4 + v.length + (encParams ps).length := by
        have h := length_drop_eq data offset _ hd1
        simp at h
        omega
      have hd2 : data.drop (offset + 2) = v.length / 256 :: v.length % 256 :: (v ++ encParams ps) := by
        have := drop_of_drop_append data offset [k / 256, k % 256]
          (v.length / 256 :: v.length % 256 :: (v ++ encParams ps)) (by simpa using hd1)
        simpa using this
      have hd4 : data.drop (offset + 4) = v ++ encParams ps := by
        have := drop_of_drop_append data offset
          [k / 256, k % 256, v.length / 256, v.length % 256] (v ++ encParams ps)
          (by simpa using hd1)
        simpa using this
      have hkey : beUint16 data offset = k := by
        rw [beUint16_of_drop data offset _ _ _ hd1]
        omega
      have hlen : beUint16 data (offset + 2) = v.length := by
        rw [beUint16_of_drop data (offset + 2) _ _ _ hd2]
        omega
      have hd5 : data.drop (offset + 4 + v.length) = encParams ps :=
        drop_of_drop_append data (offset + 4) v (encParams ps) hd4
      have hval : (data.drop (offset + 4)).take v.length = v := by
        rw [hd4]
        exact List.take_left v _
      rw [svcParamsLoop, if_pos (by omega : offset + 4 ≤ data.length)]
      simp only [hkey, hlen, hval]
      rw [if_neg (by omega : ¬ offset + 4 + v.length > data.length)]
      by_cases h5 : k = 5
      · rw [if_pos h5, findEchParams, if_pos h5]
      · rw [if_neg h5, findEchParams, if_neg h5]
        exact ih (offset + 4 + v.length) fuel (fun q hq => hwf q (by simp [hq])) hd5
          (by simpa using Nat.le_of_succ_le_succ hf)

theorem parseHTTPSRecord_spec (r : HTTPSRData) (hwf : WFHTTPS r) :
    parseHTTPSRecord (encHTTPS r) = findEchParams r.params := by
  obtain ⟨hp, hv, hps⟩ := hwf
  obtain ⟨p0, p1, hpr⟩ := List.length_eq_two.mp hp
  have henc : encHTTPS r = p0 :: p1 :: (encLabels r.targetName ++ 0 :: encParams r.params) := by
    rw [encHTTPS, hpr]
    simp [List.append_assoc]
  have hlen3 : ¬ (encHTTPS r).length < 2 := by
    rw [henc]
    simp
  have hdrop2 : (encHTTPS r).drop 2 = encLabels r.targetName ++ 0 :: encParams r.params := by
    rw [henc]
    rfl
  have hlentotal : (encHTTPS r).length =
      2 + ((encLabels r.targetName).length + 1 + (encParams r.params).length) := by
    rw [henc]
    simp
    omega
  have hfuel : r.params.length ≤ (encHTTPS r).length := by
    have := length_encParams_ge r.params
    omega
  rw [parseHTTPSRecord]
  simp only [if_neg hlen3]
  cases htn : r.targetName with
  | nil =>
    have hd0 : (encHTTPS r).drop 2 = 0 :: encParams r.params := by
      rw [hdrop2, htn]
      rfl
    obtain ⟨hlt, hget, hd3⟩ := drop_facts (encHTTPS r) 2 0 (encParams r.params) hd0
    rw [if_pos ⟨hlt, hget⟩]
    exact svcParamsLoop_spec (encHTTPS r) r.params 3 (encHTTPS r).length hps
      (by simpa using hd3) hfuel
  | cons l ls =>
    have hd0 : (encHTTPS r).drop 2 =
        l.length :: (l ++ (encLabels ls ++ 0 :: encParams r.params)) := by
      rw [hdrop2, htn]
      simp [encLabels, List.append_assoc]
    obtain ⟨hlt, hget, _⟩ := drop_facts (encHTTPS r) 2 l.length _ hd0
    have hlpos : 0 < l.length := (hv l (by rw [htn]; simp)).1
    have hcond : ¬ (2 < (encHTTPS r).length ∧ (encHTTPS r).getD 2 0 = 0) := by
      intro hc
      rw [hget] at hc
      omega
    rw [if_neg hcond]
    have hskip : skipName (encHTTPS r) 2 = 2 + (encLabels r.targetName).length := by
      rw [skipName]
      exact skipNameAux_spec (encHTTPS r) r.targetName 2 (encHTTPS r).length
        (encParams r.params) hv hdrop2
        (le_trans (length_encLabels_ge r.targetName) (by omega))
    rw [hskip]
    have hd4 : (encHTTPS r).drop (2 + (encLabels r.targetName).length + 1) =
        encParams r.params := by
      have h1 : (encHTTPS r).drop (2 + (encLabels r.targetName).length) =
          0 :: encParams r.params := by
        have := drop_of_drop_append (encHTTPS r) 2 (encLabels r.targetName)
          (0 :: encParams r.params) hdrop2
        simpa using this
      exact (drop_facts (encHTTPS r) (2 + (encLabels r.targetName).length) 0
        (encParams r.params) h1).2.2
    exact svcParamsLoop_spec (encHTTPS r) r.params _ (encHTTPS r).length hps hd4 hfuel


theorem and192_ne : ∀ x ≤ 63, ¬ x &&& 0xC0 = 0xC0 := by decide

theorem encName_length_pos (w : WireName) : 1 ≤ (encName w).length := by
  cases w <;> simp [encName]

theorem parseAnswers_step (resp : Bytes) (a : Answer) (tail : Bytes) (offset n : Nat)
    (hwf : WFAnswer a) (hd : resp.drop offset = encAnswer a ++ tail) :
    parseAnswers resp (n + 1) offset =
      if a.rrType = 65 ∧ parseHTTPSRecord a.rdata ≠ "" then
        Except.ok (parseHTTPSRecord a.rdata)
      else parseAnswers resp n (offset + (encAnswer a).length) := by
  obtain ⟨hvn, ht, hcl, hrl⟩ := hwf
  have hd' : resp.drop offset = encName a.name ++
      ([a.rrType / 256, a.rrType % 256] ++ (a.classTTL ++
        ([a.rdata.length / 256, a.rdata.length % 256] ++ (a.rdata ++ tail)))) := by
    simpa [encAnswer, List.append_assoc] using hd
  have hdN : resp.drop (offset + (encName a.name).length) =
      [a.rrType / 256, a.rrType % 256] ++ (a.classTTL ++
        ([a.rdata.length / 256, a.rdata.length % 256] ++ (a.rdata ++ tail))) :=
    drop_of_drop_append resp offset _ _ hd'
  have hS : resp.length - (offset + (encName a.name).length) =
      10 + a.rdata.length + tail.length := by
    have h := length_drop_eq resp (offset + (encName a.name).length) _ hdN
    simp [hcl] at h
    omega
  have hdT : resp.drop (offset + (encName a.name).length + 2) = a.classTTL ++
      ([a.rdata.length / 256, a.rdata.length % 256] ++ (a.rdata ++ tail)) := by
    have := drop_of_drop_append resp (offset + (encName a.name).length)
      [a.rrType / 256, a.rrType % 256] _ hdN
    simpa using this
  have hdL : resp.drop (offset + (encName a.name).length + 8) =
      [a.rdata.length / 256, a.rdata.length % 256] ++ (a.rdata ++ tail) := by
    have h := drop_of_drop_append resp (offset + (encName a.name).length + 2) a.classTTL _ hdT
    rw [hcl] at h
    have harith : offset + (encName a.name).length + 2 + 6 =
        offset + (encName a.name).length + 8 := by omega
    rwa [harith] at h
  have hdD : resp.drop (offset + (encName a.name).length + 10) = a.rdata ++ tail := by
    have h := drop_of_drop_append resp (offset + (encName a.name).length + 8)
      [a.rdata.length / 256, a.rdata.length % 256] _ hdL
    have harith : offset + (encName a.name).length + 8 + 2 =
        offset + (encName a.name).length + 10 := by omega
    simpa [harith] using h
  have hty : beUint16 resp (offset + (encName a.name).length) = a.rrType := by
    rw [beUint16_of_drop resp (offset + (encName a.name).length) _ _ _ (by simpa using hdN)]
    omega
  have hlenr : beUint16 resp (offset + (encName a.name).length + 8) = a.rdata.length := by
    rw [beUint16_of_drop resp (offset + (encName a.name).length + 8) _ _ _ (by simpa using hdL)]
    omega
  have hdata : (resp.drop (offset + (encName a.name).length + 10)).take a.rdata.length =
      a.rdata := by
    rw [hdD]
    exact List.take_left _ _
  have hofflt : offset < resp.length := by
    have h := length_drop_eq resp offset _ hd
    have h1 := encName_length_pos a.name
    simp [encAnswer] at h
    omega
  have hlenEnc : (encAnswer a).length = (encName a.name).length + 10 + a.rdata.length := by
    simp [encAnswer, hcl]
    omega
  have hnb : (if resp.getD offset 0 &&& 0xC0 = 0xC0 then offset + 2
      else skipName resp offset + 1) = offset + (encName a.name).length := by
    cases hname : a.name with
    | ptr b =>
      have hd0 : resp.drop offset = 0xC0 :: (b :: ([a.rrType / 256, a.rrType % 256] ++
          (a.classTTL ++ ([a.rdata.length / 256, a.rdata.length % 256] ++
            (a.rdata ++ tail))))) := by
        rw [hname] at hd'
        simpa [encName] using hd'
      obtain ⟨_, hget, _⟩ := drop_facts resp offset 0xC0 _ hd0
      rw [if_pos (by rw [hget]; decide)]
      simp only [encName, List.length_cons, List.length_nil]
    | labels ls =>
      have hdl : resp.drop offset = encLabels ls ++ 0 ::
          ([a.rrType / 256, a.rrType % 256] ++ (a.classTTL ++
            ([a.rdata.length / 256, a.rdata.length % 256] ++ (a.rdata ++ tail)))) := by
        rw [hname] at hd'
        simpa [encName, List.append_assoc] using hd'
      have hvls : validLabels ls := by
        rw [hname] at hvn
        exact hvn
      have hhead : resp.getD offset 0 ≤ 63 := by
        cases hls : ls with
        | nil =>
          obtain ⟨_, hget, _⟩ := drop_facts resp offset 0 _ (by simpa [hls, encLabels] using hdl)
          omega
        | cons l ls2 =>
          have hdl2 : resp.drop offset = l.length :: (l ++ (encLabels ls2 ++ 0 ::
              ([a.rrType / 256, a.rrType % 256] ++ (a.classTTL ++
                ([a.rdata.length / 256, a.rdata.length % 256] ++ (a.rdata ++ tail)))))) := by
            simpa [hls, encLabels, List.append_assoc] using hdl
          obtain ⟨_, hget, _⟩ := drop_facts resp offset l.length _ hdl2
          have := (hvls l (by rw [hls]; simp)).2
          omega
      rw [if_neg (and192_ne _ hhead)]
      have hfuel : ls.length ≤ resp.length := by
        have h1 := length_drop_eq resp offset _ hdl
        have h2 := length_encLabels_ge ls
        simp at h1
        omega
      rw [skipName, skipNameAux_spec resp ls offset resp.length _ hvls hdl hfuel]
      simp only [encName, List.length_append, List.length_cons, List.length_nil]
      omega
  rw [parseAnswers]
  rw [if_neg (by omega : ¬ offset ≥ resp.length)]
  rw [hnb]
  dsimp only
  rw [if_neg (by omega : ¬ offset + (encName a.name).length + 10 > resp.length)]
  rw [hty, hlenr, hdata]
  rw [if_neg (by omega :
    ¬ offset + (encName a.name).length + 10 + a.rdata.length > resp.length)]
  by_cases h65 : a.rrType = 65
  · by_cases hne : parseHTTPSRecord a.rdata ≠ ""
    · rw [if_pos h65, if_pos hne, if_pos ⟨h65, hne⟩]
    · rw [if_pos h65, if_neg hne, if_neg (fun hc => hne hc.2)]
      congr 1
      omega
  · rw [if_neg h65, if_neg (fun hc => h65 hc.1)]
    congr 1
    omega


theorem parseAnswers_skip (resp : Bytes) (answers : List Answer) :
    ∀ offset, (∀ a ∈ answers, WFAnswer a) →
      (∀ a ∈ answers, a.rrType = 65 → parseHTTPSRecord a.rdata = "") →
      resp.drop offset = encAnswers answers →
      parseAnswers resp answers.length offset = .ok "" := by
  induction answers with
  | nil => intro offset _ _ _; rfl
  | cons a rest ih =>
    intro offset hwf hech hd
    have hstep := parseAnswers_step resp a (encAnswers rest) offset rest.length
      (hwf a (by simp)) (by simpa [encAnswers] using hd)
    rw [show (a :: rest).length = rest.length + 1 from rfl, hstep]
    rw [if_neg (fun hc => hc.2 (hech a (by simp) hc.1))]
    exact ih (offset + (encAnswer a).length)
      (fun x hx => hwf x (by simp [hx])) (fun x hx h => hech x (by simp [hx]) h)
      (drop_of_drop_append resp offset _ _ (by simpa [encAnswers] using hd))

theorem parseAnswers_finds (resp : Bytes) (pre : List Answer) (a : Answer)
    (post : List Answer) :
    ∀ offset, (∀ b ∈ pre, WFAnswer b) → WFAnswer a →
      (∀ b ∈ pre, b.rrType = 65 → parseHTTPSRecord b.rdata = "") →
      a.rrType = 65 → parseHTTPSRecord a.rdata ≠ "" →
      resp.drop offset = encAnswers (pre ++ a :: post) →
      parseAnswers resp (pre ++ a :: post).length offset =
        .ok (parseHTTPSRecord a.rdata) := by
  induction pre with
  | nil =>
    intro offset _ hwa _ h65 hne hd
    simp only [List.nil_append] at hd ⊢
    have hstep := parseAnswers_step resp a (encAnswers post) offset post.length hwa
      (by simpa [encAnswers] using hd)
    rw [show (a :: post).length = post.length + 1 from rfl, hstep, if_pos ⟨h65, hne⟩]
  | cons b pre ih =>
    intro offset hwf hwa hech h65 hne hd
    have hd1 : resp.drop offset = encAnswer b ++ encAnswers (pre ++ a :: post) := by
      simpa [encAnswers] using hd
    have hstep := parseAnswers_step resp b (encAnswers (pre ++ a :: post)) offset
      (pre ++ a :: post).length (hwf b (by simp)) hd1
    rw [show ((b :: pre) ++ a :: post).length = (pre ++ a :: post).length + 1 by simp]
    rw [hstep]
    rw [if_neg (fun hc => hc.2 (hech b (by simp) hc.1))]
    exact ih (offset + (encAnswer b).length) (fun x hx => hwf x (by simp [hx])) hwa
      (fun x hx h => hech x (by simp [hx]) h) h65 hne
      (drop_of_drop_append resp offset _ _ hd1)

/-- Reduce `parseDNSResponse` on a serialized response to the answer loop. -/
theorem parseDNSResponse_reduce (hdrPre hdrPost qMeta : Bytes) (q : List (List Nat))
    (answers : List Answer)
    (h1 : hdrPre.length = 6) (h2 : hdrPost.length = 4) (h3 : qMeta.length = 4)
    (hq : validLabels q) :
    parseDNSResponse (encResponse hdrPre hdrPost q qMeta answers) =
      (if answers.length = 0 then .error "no answer records"
       else parseAnswers (encResponse hdrPre hdrPost q qMeta answers) answers.length
         (12 + (encLabels q).length + 5)) ∧
      (encResponse hdrPre hdrPost q qMeta answers).drop (12 + (encLabels q).length + 5) =
        encAnswers answers := by
  set resp := encResponse hdrPre hdrPost q qMeta answers with hresp
  have hd0 : resp.drop 0 = hdrPre ++
      ([answers.length / 256, answers.length % 256] ++ (hdrPost ++
        (encLabels q ++ (0 :: (qMeta ++ encAnswers answers))))) := by
    rw [hresp, encResponse]
    simp [List.append_assoc]
  have hd6 : resp.drop 6 = [answers.length / 256, answers.length % 256] ++ (hdrPost ++
      (encLabels q ++ (0 :: (qMeta ++ encAnswers answers)))) := by
    have := drop_of_drop_append resp 0 hdrPre _ hd0
    rwa [h1, Nat.zero_add] at this
  have hd8 : resp.drop 8 = hdrPost ++ (encLabels q ++ (0 :: (qMeta ++ encAnswers answers))) := by
    have := drop_of_drop_append resp 6 [answers.length / 256, answers.length % 256] _ hd6
    simpa using this
  have hd12 : resp.drop 12 = encLabels q ++ 0 :: (qMeta ++ encAnswers answers) := by
    have := drop_of_drop_append resp 8 hdrPost _ hd8
    rwa [h2, show (8 : Nat) + 4 = 12 from rfl] at this
  have hdQ : resp.drop (12 + (encLabels q).length) = 0 :: (qMeta ++ encAnswers answers) :=
    drop_of_drop_append resp 12 (encLabels q) _ hd12
  have hdQ1 : resp.drop (12 + (encLabels q).length + 1) = qMeta ++ encAnswers answers :=
    (drop_facts resp (12 + (encLabels q).length) 0 _ hdQ).2.2
  have hdA : resp.drop (12 + (encLabels q).length + 5) = encAnswers answers := by
    have := drop_of_drop_append resp (12 + (encLabels q).length + 1) qMeta _ hdQ1
    rw [h3] at this
    have harith : 12 + (encLabels q).length + 1 + 4 = 12 + (encLabels q).length + 5 := by omega
    rwa [harith] at this
  have hlen12 : ¬ resp.length < 12 := by
    have h := length_drop_eq resp 12 _ hd12
    simp at h
    omega
  have hanc : beUint16 resp 6 = answers.length := by
    rw [beUint16_of_drop resp 6 _ _ _ (by simpa using hd6)]
    omega
  have hskip : skipName resp 12 = 12 + (encLabels q).length := by
    rw [skipName]
    refine skipNameAux_spec resp q 12 resp.length _ hq hd12 ?_
    have hge := length_encLabels_ge q
    have := length_drop_eq resp 12 _ hd12
    simp at this
    omega
  refine ⟨?_, hdA⟩
  rw [parseDNSResponse, if_neg hlen12]
  simp only [hanc, hskip]

theorem findEchParams_append (ps1 : List (Nat × Bytes)) (ps2 : List (Nat × Bytes)) (v : Bytes)
    (h : ∀ p ∈ ps1, p.1 ≠ 5) :
    findEchParams (ps1 ++ (5, v) :: ps2) = base64EncodeStr v := by
  induction ps1 with
  | nil => simp [findEchParams]
  | cons p rest ih =>
    obtain ⟨k, w⟩ := p
    have hk : k ≠ 5 := h (k, w) (by simp)
    rw [List.cons_append, findEchParams, if_neg hk]
    exact ih fun x hx => h x (by simp [hx])

theorem findEchParams_none (ps : List (Nat × Bytes)) (h : ∀ p ∈ ps, p.1 ≠ 5) :
    findEchParams ps = "" := by
  induction ps with
  | nil => rfl
  | cons p rest ih =>
    obtain ⟨k, w⟩ := p
    rw [findEchParams, if_neg (h (k, w) (by simp))]
    exact ih fun x hx => h x (by simp [hx])

theorem string_mk_ne_empty (c : Char) (cs : List Char) : (⟨c :: cs⟩ : String) ≠ "" := by
  intro hcon
  exact List.noConfusion (congrArg String.data hcon)

theorem base64EncodeStr_ne_empty (v : Bytes) (hv : v ≠ []) : base64EncodeStr v ≠ "" := by
  match v, hv with
  | a :: b :: c :: rest, _ =>
    rw [base64EncodeStr, base64Encode]
    exact string_mk_ne_empty _ _
  | [a, b], _ =>
    rw [base64EncodeStr, base64Encode]
    exact string_mk_ne_empty _ _
  | [a], _ =>
    rw [base64EncodeStr, base64Encode]
    exact string_mk_ne_empty _ _


instance (ls : List (List Nat)) : Decidable (validLabels ls) := by
  unfold validLabels
  infer_instance

instance (w : WireName) : Decidable (validName w) := by
  cases w with
  | ptr b => unfold validName; infer_instance
  | labels ls => unfold validName; infer_instance

instance (a : Answer) : Decidable (WFAnswer a) := by
  unfold WFAnswer
  infer_instance

instance (p : Nat × Bytes) : Decidable (WFParam p) := by
  unfold WFParam
  infer_instance

instance (r : HTTPSRData) : Decidable (WFHTTPS r) := by
  unfold WFHTTPS
  infer_instance

/-- C6 counterexample: on a response with `ANCOUNT = 0` the resolver does not
yield empty — it returns the `no answer records` error — and ECH preparation
then fails with the wrapped DNS-query error, not with ech-not-found. -/
theorem dns_ancount_zero_counterexample :
    parseDNSResponse [0, 0, 0, 0, 0, 0, 0, 0, 0, 0, 0, 0] =
        Except.error "no answer records" ∧
      parseDNSResponse [0, 0, 0, 0, 0, 0, 0, 0, 0, 0, 0, 0] ≠ Except.ok "" ∧
      prepareECH (parseDNSResponse [0, 0, 0, 0, 0, 0, 0, 0, 0, 0, 0, 0]) =
        Except.error (EchError.dnsQueryFailed "no answer records") ∧
      prepareECH (parseDNSResponse [0, 0, 0, 0, 0, 0, 0, 0, 0, 0, 0, 0]) ≠
        Except.error EchError.echNotFound := by
  refine ⟨rfl, ?_, rfl, ?_⟩
  · intro hcon
    exact Except.noConfusion hcon
  · intro hcon
    exact EchError.noConfusion (Except.error.inj hcon)

/-- C6 amended: (i) for every well-formed response whose first HTTPS RR carries
a key-5 SvcParam with non-empty value `v`, the resolver returns `v` verbatim
(base64-encoded internally, and the stored ECH list after the decode equals
`v`); (ii) a well-formed response none of whose HTTPS RRs carries key 5 yields
empty and ECH preparation fails with ech-not-found; (iii) a response with
`ANCOUNT = 0` yields a parse error and ECH preparation fails with the wrapped
DNS-query error (not ech-not-found). -/
theorem dns_ech_resolution_amended :
    (∀ (hdrPre hdrPost qMeta : Bytes) (q : List (List Nat)) (pre post : List Answer)
        (a : Answer) (r : HTTPSRData) (ps1 ps2 : List (Nat × Bytes)) (v : Bytes),
      hdrPre.length = 6 → hdrPost.length = 4 → qMeta.length = 4 → validLabels q →
      (∀ b ∈ pre ++ a :: post, WFAnswer b) →
      (∀ b ∈ pre, b.rrType ≠ 65) →
      a.rrType = 65 → a.rdata = encHTTPS r → WFHTTPS r →
      r.params = ps1 ++ (5, v) :: ps2 → (∀ p ∈ ps1, p.1 ≠ 5) →
      v ≠ [] → (∀ x ∈ v, x < 256) →
      parseDNSResponse (encResponse hdrPre hdrPost q qMeta (pre ++ a :: post)) =
          Except.ok (base64EncodeStr v) ∧
        prepareECH (parseDNSResponse (encResponse hdrPre hdrPost q qMeta (pre ++ a :: post))) =
          Except.ok v) ∧
    (∀ (hdrPre hdrPost qMeta : Bytes) (q : List (List Nat)) (answers : List Answer),
      hdrPre.length = 6 → hdrPost.length = 4 → qMeta.length = 4 → validLabels q →
      answers ≠ [] →
      (∀ b ∈ answers, WFAnswer b) →
      (∀ b ∈ answers, b.rrType = 65 → ∃ r, WFHTTPS r ∧ b.rdata = encHTTPS r ∧
        ∀ p ∈ r.params, p.1 ≠ 5) →
      parseDNSResponse (encResponse hdrPre hdrPost q qMeta answers) = Except.ok "" ∧
        prepareECH (parseDNSResponse (encResponse hdrPre hdrPost q qMeta answers)) =
          Except.error EchError.echNotFound) ∧
    (∀ (hdrPre hdrPost qMeta : Bytes) (q : List (List Nat)),
      hdrPre.length = 6 → hdrPost.length = 4 → qMeta.length = 4 → validLabels q →
      parseDNSResponse (encResponse hdrPre hdrPost q qMeta []) =
          Except.error "no answer records" ∧
        prepareECH (parseDNSResponse (encResponse hdrPre hdrPost q qMeta [])) =
          Except.error (EchError.dnsQueryFailed "no answer records")) := by
  refine ⟨?_, ?_, ?_⟩
  · intro hdrPre hdrPost qMeta q pre post a r ps1 ps2 v h1 h2 h3 hq hwfall hpre h65
      hrdata hwfr hps hps1 hv hvb
    obtain ⟨hred, hdrop⟩ :=
      parseDNSResponse_reduce hdrPre hdrPost qMeta q (pre ++ a :: post) h1 h2 h3 hq
    have hne0 : (pre ++ a :: post).length ≠ 0 := by simp
    have hech : parseHTTPSRecord a.rdata = base64EncodeStr v := by
      rw [hrdata, parseHTTPSRecord_spec r hwfr, hps, findEchParams_append ps1 ps2 v hps1]
    have hnee : parseHTTPSRecord a.rdata ≠ "" := by
      rw [hech]
      exact base64EncodeStr_ne_empty v hv
    have hfind := parseAnswers_finds (encResponse hdrPre hdrPost q qMeta (pre ++ a :: post))
      pre a post (12 + (encLabels q).length + 5)
      (fun b hb => hwfall b (by simp [hb]))
      (hwfall a (by simp))
      (fun b hb h => absurd h (hpre b hb))
      h65 hnee hdrop
    have hparse : parseDNSResponse (encResponse hdrPre hdrPost q qMeta (pre ++ a :: post)) =
        Except.ok (base64EncodeStr v) := by
      rw [hred, if_neg hne0, hfind, hech]
    refine ⟨hparse, ?_⟩
    rw [hparse]
    simp only [prepareECH]
    rw [if_neg (base64EncodeStr_ne_empty v hv)]
    have hdec : base64Decode (base64EncodeStr v).data = some v := by
      show base64Decode (base64Encode v) = some v
      exact base64_roundtrip v hvb
    rw [hdec]
  · intro hdrPre hdrPost qMeta q answers h1 h2 h3 hq hne hwf hkey
    obtain ⟨hred, hdrop⟩ :=
      parseDNSResponse_reduce hdrPre hdrPost qMeta q answers h1 h2 h3 hq
    have hne0 : answers.length ≠ 0 := by
      simpa using hne
    have hech : ∀ b ∈ answers, b.rrType = 65 → parseHTTPSRecord b.rdata = "" := by
      intro b hb h65
      obtain ⟨r, hwfr, hrd, hnok⟩ := hkey b hb h65
      rw [hrd, parseHTTPSRecord_spec r hwfr, findEchParams_none r.params hnok]
    have hskip := parseAnswers_skip (encResponse hdrPre hdrPost q qMeta answers) answers
      (12 + (encLabels q).length + 5) hwf hech hdrop
    have hparse : parseDNSResponse (encResponse hdrPre hdrPost q qMeta answers) =
        Except.ok "" := by
      rw [hred, if_neg hne0, hskip]
    exact ⟨hparse, by rw [hparse]; rfl⟩
  · intro hdrPre hdrPost qMeta q h1 h2 h3 hq
    obtain ⟨hred, _⟩ :=
      parseDNSResponse_reduce hdrPre hdrPost qMeta q [] h1 h2 h3 hq
    have hparse : parseDNSResponse (encResponse hdrPre hdrPost q qMeta []) =
        Except.error "no answer records" := by
      rw [hred]
      rfl
    exact ⟨hparse, by rw [hparse]; rfl⟩


/-- The sample HTTPS rdata: priority 1, root target name, one SvcParam with
key 5 and value bytes `1 2 3`. -/
def rEx : HTTPSRData := ⟨[0, 1], [], [(5, [1, 2, 3])]⟩

/-- The sample HTTPS answer: compressed name pointing at offset 12, type 65,
one minute of TTL. -/
def aEx : Answer := ⟨.ptr 12, 65, [0, 1, 0, 0, 0, 60], encHTTPS rEx⟩

/-- Concrete instance of the amended C6 statement: a one-answer response whose
HTTPS RR carries `ech = [1, 2, 3]`; the resolver returns its base64 form and
the stored ECH list is exactly `[1, 2, 3]`. -/
theorem dns_ech_resolution_amended_witness :
    parseDNSResponse (encResponse [0, 1, 129, 128, 0, 1] [0, 0, 0, 0] [[97]] [0, 65, 0, 1]
        ([] ++ aEx :: [])) = Except.ok (base64EncodeStr [1, 2, 3]) ∧
      prepareECH (parseDNSResponse (encResponse [0, 1, 129, 128, 0, 1] [0, 0, 0, 0] [[97]]
        [0, 65, 0, 1] ([] ++ aEx :: []))) = Except.ok [1, 2, 3] :=
  dns_ech_resolution_amended.1 [0, 1, 129, 128, 0, 1] [0, 0, 0, 0] [0, 65, 0, 1] [[97]]
    [] [] aEx rEx [] [] [1, 2, 3]
    rfl rfl rfl (by decide) (by decide) (by decide) rfl rfl (by decide)
    rfl (by decide) (by decide) (by decide)

end EchPlus
